import Mathlib

/-!
Verification development for the ohlcvc_builder repository: a shallow
embedding of the tick-classification and bar-aggregation engine
(ohlcvc_builder/builder.py, ohlcvc_builder/utils.py,
ohlcvc_builder/concurrency.py) together with theorems settling the
specification claims.

Conventions of the embedding:
* timestamps are integers counting nanoseconds since the epoch, exactly as
  pandas stores datetime64[ns] values;
* prices and sizes are rationals (floats idealized as exact rationals);
* a pandas cell that is missing (NaN / NaT / NA) is Option.none, and a
  fallible pandas operation (KeyError, ValueError, unsafe cast) is an
  Except value;
* DataFrames are embedded as lists of rows (row order is the pandas row
  order) or as association lists of named columns.
-/

namespace OHLCVC

/-- Nanoseconds per millisecond. -/
def nsPerMs : ℤ := 1000000

/-- Nanoseconds per day. -/
def nsPerDay : ℤ := 86400000000000

/-- Nanoseconds per minute. -/
def nsPerMinute : ℤ := 60000000000

/-- Tri-state value of the merged last-eligibility attribute of a tick:
after utils.load_trade_conditions the last column holds True, False, or
the string value conditional. -/
inductive TriState where
  | tt
  | ff
  | conditional
deriving DecidableEq, Repr

/-- A normalized, condition-merged trade row as the classifier passes of
builder.OHLCVCBuilder consume it (one row of df_trades): timestamp in
nanoseconds since the epoch, price, size, integer condition code, and the
per-code attribute columns that the passes read (Last, High, Low). -/
structure Trade where
  ts : ℤ
  price : ℚ
  size : ℚ
  cond : ℤ
  lastA : TriState
  highA : Bool
  lowA : Bool
deriving DecidableEq, Repr

/-- The per-tick boolean columns written by the classifier passes
(RTH, include_in_open, include_in_high, include_in_low, include_in_close,
include_in_volume). -/
structure Flags where
  rth : Bool
  inOpen : Bool
  inHigh : Bool
  inLow : Bool
  inClose : Bool
  inVolume : Bool
deriving DecidableEq, Repr

/-- A classified row: the immutable trade data with its flag columns. -/
abbrev Row : Type := Trade × Flags

/-- Clock time of a timestamp, in nanoseconds past midnight
(pandas Series.dt.time of the timestamp column; Int.emod with the positive
modulus is the floored remainder pandas uses). -/
def todOf (ts : ℤ) : ℤ := Int.emod ts nsPerDay

/-- Membership of a clock time in the regular-trading-hours window:
builder._apply_general_conditions computes
timestamp.dt.time.between(09:30:00, 16:00:00, inclusive=left), so the
lower bound 09:30:00 (34200000000000 ns) is inclusive and the upper bound
16:00:00 (57600000000000 ns) is exclusive. -/
def inRTH (ts : ℤ) : Bool :=
  decide ((34200000000000 : ℤ) ≤ todOf ts) && decide (todOf ts < (57600000000000 : ℤ))

/-- Row update performed by builder._apply_general_conditions: the RTH flag,
include_in_open from the eligible condition set, and include_in_high and
include_in_low, which inside RTH also require the High and Low attribute
columns while outside RTH they require eligibility only. -/
def gPassRow (elig : ℤ → Bool) (r : Row) : Row :=
  let t := r.1
  ( t,
    { r.2 with
      rth := inRTH t.ts
      inOpen := elig t.cond
      inHigh := if inRTH t.ts then elig t.cond && t.highA else elig t.cond
      inLow := if inRTH t.ts then elig t.cond && t.lowA else elig t.cond } )

/-- The open/high/low classifier pass (builder._apply_general_conditions). -/
def applyGeneralConditions (elig : ℤ → Bool) (rows : List Row) : List Row :=
  rows.map (gPassRow elig)

/-- Row update performed by builder._apply_volume_conditions:
include_in_volume is membership of the condition code in
volume_true_conditions. -/
def vPassRow (volC : ℤ → Bool) (r : Row) : Row :=
  (r.1, { r.2 with inVolume := volC r.1.cond })

/-- The volume classifier pass (builder._apply_volume_conditions). -/
def applyVolumeConditions (volC : ℤ → Bool) (rows : List Row) : List Row :=
  rows.map (vPassRow volC)

/-- Minute bucket of a timestamp: pandas Grouper and resample with
frequency 1min floor the timestamp to the minute (bins aligned to the
epoch), which is the floored division of the nanosecond count. -/
def bucketOf (ts : ℤ) : ℤ := Int.fdiv ts nsPerMinute

/-- Definite last-eligibility test: builder._apply_close_conditions first
sets include_in_close = True on exactly the rows whose Last column equals
True (the comparison Last == True is False on the conditional value). -/
def lastIsTrue (t : Trade) : Bool := t.lastA == TriState.tt

/-- The base close flags written before the per-interval scan:
include_in_close is initialized to False on every row and then set where
Last == True. -/
def baseClose (r : Row) : Row := (r.1, { r.2 with inClose := lastIsTrue r.1 })

/-- Condition codes requiring conditional handling in the close pass
(conditional_condition_codes in builder._apply_close_conditions). -/
def condCodes : List ℤ := [2, 5, 8, 13, 15, 96, 98]

/-- Decision of the per-interval scan of builder._apply_close_conditions
for one conditional-coded row. Here idxd is the label-enumerated snapshot
of the rows as the groupby iteration materializes it: pandas groupby
builds the groups from a sorted copy of the frame taken when iteration
starts, so the .at updates performed on df_trades during the scan are
invisible to the group data the scan consults. The argument i is the row
label and t its trade. Codes 2, 5, 8 require this row to be the only
conditional-coded row of its interval; code 13 requires that no row of
its interval has a (snapshot) include_in_close flag; code 15 requires the
row to be the first of its interval; codes 96, 98 require it to be the
last one. -/
def closeGrant (idxd : List (ℕ × Row)) (i : ℕ) (t : Trade) : Bool :=
  let G := idxd.filter (fun p => bucketOf p.2.1.ts == bucketOf t.ts)
  if [(2 : ℤ), 5, 8].contains t.cond then
    (G.filter (fun p => condCodes.contains p.2.1.cond)).length == 1
  else if t.cond == 13 then
    !(G.any (fun p => p.2.2.inClose))
  else if t.cond == 15 then
    G.head?.map Prod.fst == some i
  else if [(96 : ℤ), 98].contains t.cond then
    G.getLast?.map Prod.fst == some i
  else
    false

/-- The close classifier pass (builder._apply_close_conditions): base flags
from the Last column, then the per-interval scan may additionally set the
flag on conditional-coded rows (it never unsets a flag; row labels are the
positions 0..n-1 of the reset RangeIndex). -/
def applyCloseConditions (rows : List Row) : List Row :=
  let base := rows.map baseClose
  base.enum.map (fun p =>
    ( p.2.1,
      { p.2.2 with
        inClose := p.2.2.inClose ||
          (condCodes.contains p.2.1.cond && closeGrant base.enum p.1 p.2.1) } ))

/-- Sequential execution of the three classifier passes in source order
(builder.apply_conditions_sequentially): general, close, volume. -/
def applyConditionsSequentially (elig volC : ℤ → Bool) (rows : List Row) : List Row :=
  applyVolumeConditions volC (applyCloseConditions (applyGeneralConditions elig rows))

/-- Modelled from the spec: builder.apply_conditions_concurrently submits
the three classifier passes to concurrency.concurrent_apply, a thread pool
whose worker count comes from the config module that is absent from the
sources (spec sections 5 and 6: a bounded pool, each pass owning a
disjoint set of output columns and reading only columns no pass writes).
A concurrent run is modelled as executing the submitted passes in an
arbitrary scheduler-chosen order over the shared row buffer; sub-statement
interleavings cannot be observed because no pass reads data another pass
writes. -/
def concurrentApply (sched : List (List Row → List Row)) (rows : List Row) : List Row :=
  sched.foldl (fun s f => f s) rows

/-! ## Bar aggregation (builder.calculate_ohlcvc) -/

/-- One OHLCVC bar: open/high/low/close prices (absent cells are none),
volume (an integer column once cast by astype(int); cells that alignment
left missing and that forward fill could not reach are none) and the tick
count. -/
structure Bar where
  op : Option ℚ
  hi : Option ℚ
  lo : Option ℚ
  cl : Option ℚ
  vol : Option ℤ
  cnt : ℕ
deriving DecidableEq, Repr

/-- Ticks of one minute bucket, in row order (pandas groupby and resample
keep the original row order inside every bin). -/
def ticksIn (rows : List Row) (b : ℤ) : List Row :=
  rows.filter (fun r => bucketOf r.1.ts == b)

/-- Truncation of a rational toward zero: the C cast semantics of
astype(int) on a float column. -/
def truncQ (q : ℚ) : ℤ := Int.tdiv q.num q.den

/-- Inclusive integer range as a list. -/
def intRange (lo hi : ℤ) : List ℤ :=
  (List.range (hi + 1 - lo).toNat).map (fun k : ℕ => lo + (k : ℤ))

/-- Minute buckets of every row. -/
def allBuckets (rows : List Row) : List ℤ :=
  rows.map (fun r => bucketOf r.1.ts)

/-- The buckets of the output frame. The close column is produced by a
groupby over the full frame, so its index spans every minute from the
first to the last observed tick; the open/high/low indices are contiguous
subranges of it, so the union index of the assembled DataFrame is exactly
this full span. -/
def spanList (rows : List Row) : List ℤ :=
  match (allBuckets rows).min?, (allBuckets rows).max? with
  | some lo, some hi => intRange lo hi
  | _, _ => []

/-- Membership of a bucket in the index of the resampled volume series:
the volume series is built by resampling only the include_in_volume rows,
so its index spans the buckets from the first to the last flagged tick;
outside that span the aligned volume cell is missing. -/
def volSpanMem (rows : List Row) (b : ℤ) : Bool :=
  let vb := (rows.filter (fun r => r.2.inVolume)).map (fun r => bucketOf r.1.ts)
  match vb.min?, vb.max? with
  | some lo, some hi => decide (lo ≤ b) && decide (b ≤ hi)
  | _, _ => false

/-- Close reduction of one bucket (the nested get_close of
builder.calculate_ohlcvc): the price of the last include_in_close row if
any, else the price of the last row regardless of flags, else NaN. -/
def getClose (g : List Row) : Option ℚ :=
  let ct := g.filter (fun r => r.2.inClose)
  if !ct.isEmpty then ct.getLast?.map (fun r => r.1.price)
  else if !g.isEmpty then g.getLast?.map (fun r => r.1.price)
  else none

/-- Open cell of a bucket before gap fill: resample(...).first() over the
include_in_open rows (missing both outside the filtered span and on bins
with no flagged tick, which alignment likewise turns into NaN). -/
def rawOpen (rows : List Row) (b : ℤ) : Option ℚ :=
  (((ticksIn rows b).filter (fun r => r.2.inOpen)).head?).map (fun r => r.1.price)

/-- High cell of a bucket before gap fill: resample(...).max() over the
include_in_high rows. -/
def rawHigh (rows : List Row) (b : ℤ) : Option ℚ :=
  (((ticksIn rows b).filter (fun r => r.2.inHigh)).map (fun r => r.1.price)).max?

/-- Low cell of a bucket before gap fill: resample(...).min() over the
include_in_low rows. -/
def rawLow (rows : List Row) (b : ℤ) : Option ℚ :=
  (((ticksIn rows b).filter (fun r => r.2.inLow)).map (fun r => r.1.price)).min?

/-- Close cell of a bucket before gap fill: get_close applied to every
bucket of the full span by groupby(Grouper).apply. -/
def rawClose (rows : List Row) (b : ℤ) : Option ℚ :=
  getClose (ticksIn rows b)

/-- Volume cell of a bucket: inside the volume resample span it is the
astype(int) of the sum of the sizes of the include_in_volume rows of the
bucket (the sum of an empty bin is 0, so fillna(0) changes nothing);
outside the span the aligned cell is missing. -/
def rawVol (rows : List Row) (b : ℤ) : Option ℤ :=
  if volSpanMem rows b then
    some (truncQ ((((ticksIn rows b).filter (fun r => r.2.inVolume)).map
      (fun r => r.1.size)).sum))
  else
    none

/-- Count cell of a bucket: resample(...).count() over the price column of
the full frame, which is the number of rows of the bucket (prices carry no
NaN after normalization); its index is the full span so no cell is ever
missing. -/
def rawCnt (rows : List Row) (b : ℤ) : ℕ :=
  (ticksIn rows b).length

/-- Forward fill of one column (DataFrame.fillna with method ffill fills
every column independently): each missing cell takes the value of the
nearest earlier non-missing cell, and stays missing if there is none. -/
def ffill1 (last : Option α) : List (Option α) → List (Option α)
  | [] => []
  | none :: xs => last :: ffill1 last xs
  | some v :: xs => some v :: ffill1 (some v) xs

/-- Last non-missing value of a column prefix, used to characterize
ffill1. -/
def lastVal (init : Option α) (l : List (Option α)) : Option α :=
  l.foldl (fun acc x => match x with | none => acc | some v => some v) init

/-- The bar aggregation of builder.calculate_ohlcvc: per-bucket raw cells
for open/high/low/close over the union (= full-span) index, the aligned
volume and count columns, then one DataFrame-wide fillna(method=ffill),
which fills every column independently (count cells are never missing, so
the fill only touches the other five columns). -/
def calculateOHLCVC (rows : List Row) : List (ℤ × Bar) :=
  let bs := spanList rows
  let opC := ffill1 none (bs.map (rawOpen rows))
  let hiC := ffill1 none (bs.map (rawHigh rows))
  let loC := ffill1 none (bs.map (rawLow rows))
  let clC := ffill1 none (bs.map (rawClose rows))
  let volC := ffill1 none (bs.map (rawVol rows))
  let cntC := bs.map (rawCnt rows)
  (List.range bs.length).map (fun i =>
    ( bs.getD i 0,
      { op := opC.getD i none
        hi := hiC.getD i none
        lo := loC.getD i none
        cl := clC.getD i none
        vol := volC.getD i none
        cnt := cntC.getD i 0 } ))

/-- The full build on classified rows (builder.get_ohlcvc): apply the
classifier passes, then aggregate. -/
def getOHLCVC (elig volC : ℤ → Bool) (rows : List Row) : List (ℤ × Bar) :=
  calculateOHLCVC (applyConditionsSequentially elig volC rows)

/-! ## Cells, tables and the reference-table loader (utils.py) -/

/-- One pandas cell of an object column: a float (idealized rational), a
string, a python bool, or a missing value (NaN / NaT / NA). -/
inductive Cell where
  | num (q : ℚ)
  | str (s : String)
  | bool (b : Bool)
  | null
deriving DecidableEq, Repr

/-- A reference-table DataFrame as an association list of named columns. -/
abbrev Table : Type := List (String × List Cell)

/-- Errors of the embedded pipeline: schemaError is the ValueError raised
for structurally missing columns (validate_columns and the loader column
check), keyError a pandas column-lookup failure, castError a failing
astype cast, valueError any other pandas ValueError. -/
inductive BuildErr where
  | schemaError (missing : List String)
  | keyError (col : String)
  | castError
  | valueError (msg : String)
deriving DecidableEq, Repr

/-- Column lookup tbl[name]: pandas raises KeyError when the (case
sensitive) name is absent. -/
def getCol (tbl : Table) (name : String) : Except BuildErr (List Cell) :=
  match tbl.find? (fun c => c.1 == name) with
  | some c => .ok c.2
  | none => .error (.keyError name)

/-- ASCII lowering of a string (str.lower on the identifier-like column
names and cell tokens this pipeline handles). -/
def strLower (s : String) : String := ⟨s.data.map Char.toLower⟩

/-- Column-name normalization of load_trade_conditions:
[col.lower() for col in df.columns]. -/
def lowerCols (tbl : Table) : Table := tbl.map (fun c => (strLower c.1, c.2))

/-- Expected (lowercase) columns of TradeConditions.csv in
load_trade_conditions. -/
def expectedColumns : List String :=
  ["code", "name", "cancel", "latereport", "autoexecuted",
   "openreport", "volume", "high", "low", "last"]

/-- The boolean attribute columns load_trade_conditions coerces. -/
def boolCols : List String :=
  ["cancel", "latereport", "autoexecuted", "openreport", "volume", "high", "low", "last"]

/-- Lowercased string form of a cell: astype(str).str.lower(). A float
cell renders as its decimal numeral (never one of the mapped tokens), a
missing value renders as nan. -/
def cellStrLower (c : Cell) : String :=
  match c with
  | .num q => strLower (toString q)
  | .str s => strLower s
  | .bool b => if b then "true" else "false"
  | .null => "nan"

/-- Per-cell coercion of one boolean attribute column in
load_trade_conditions: map true to True, false to False, the star token to
the string conditional on the last column and to True elsewhere; every
unmapped value becomes NaN and fillna(False) turns it into False. -/
def coerceCell (col : String) (c : Cell) : Cell :=
  match cellStrLower c with
  | "true" => .bool true
  | "false" => .bool false
  | "*" => if col == "last" then .str "conditional" else .bool true
  | _ => .bool false

/-- utils.load_trade_conditions on an already-read CSV table: lowercase
the column names, fail with the missing-columns ValueError when an
expected column is absent, otherwise keep exactly the expected columns and
coerce the boolean attribute columns cell by cell (a ValueError is the
only failure; no cell value ever raises). -/
def loadTradeConditions (tbl : Table) : Except BuildErr Table :=
  let t := lowerCols tbl
  let missing := expectedColumns.filter (fun c => !(t.map Prod.fst).contains c)
  if missing.isEmpty then
    .ok (expectedColumns.map (fun name =>
      ( name,
        match t.find? (fun c => c.1 == name) with
        | some c => if boolCols.contains name then c.2.map (coerceCell name) else c.2
        | none => [] )))
  else
    .error (.schemaError missing)

/-- Elementwise comparison of an object cell with a python bool
(pandas == value): a bool cell compares by value, a numeric cell compares
with 1 or 0 (True == 1 in python), anything else is unequal. -/
def cellEqBool (c : Cell) (v : Bool) : Bool :=
  match c with
  | .bool b => b == v
  | .num q => q == (if v then (1 : ℚ) else 0)
  | _ => false

/-- Elementwise comparison of an object cell with an integer (the merge
key equality code == condition). -/
def cellEqInt (c : Cell) (z : ℤ) : Bool :=
  match c with
  | .num q => q == (z : ℚ)
  | .bool b => (if b then (1 : ℤ) else 0) == z
  | _ => false

/-- astype(int) on one cell of an object column (numpy unsafe cast):
floats truncate toward zero, bools map to 0/1, anything else raises. -/
def castCellInt (c : Cell) : Except BuildErr ℤ :=
  match c with
  | .num q => .ok (truncQ q)
  | .bool b => .ok (if b then 1 else 0)
  | .str _ => .error .castError
  | .null => .error .castError

/-- Elementwise application of a fallible cast to a column, stopping at
the first raising cell (the semantics of a column astype). -/
def exceptMap (f : α → Except BuildErr β) : List α → Except BuildErr (List β)
  | [] => .ok []
  | x :: xs => do
    let y ← f x
    let ys ← exceptMap f xs
    pure (y :: ys)

/-- builder.OHLCVCBuilder._determine_conditions: look up the boolean
column (capitalized name, raising KeyError when absent), filter the table
rows on it, then take the Code column of the filtered frame, cast it with
astype(int) and keep the distinct codes. -/
def determineConditions (tbl : Table) (colName : String) (v : Bool) :
    Except BuildErr (List ℤ) := do
  let col ← getCol tbl colName
  let codes ← getCol tbl "Code"
  let sel := ((codes.zip col).filter (fun p => cellEqBool p.2 v)).map Prod.fst
  let ints ← exceptMap castCellInt sel
  pure ints.dedup

/-! ## The trade normalizer (utils.validate_columns,
utils.process_trades_dataframe, utils.merge_trade_conditions) -/

/-- A raw trade DataFrame: the format column names and the raw rows. -/
structure RawFrame where
  cols : List String
  rows : List (List Cell)
deriving DecidableEq, Repr

/-- pd.DataFrame(trades, columns=format_columns): raises a ValueError when
a row length does not match the column count. -/
def mkDataFrame (trades : List (List Cell)) (fmt : List String) :
    Except BuildErr RawFrame :=
  if trades.all (fun r => r.length == fmt.length) then .ok ⟨fmt, trades⟩
  else .error (.valueError "columns passed do not match data")

/-- Essential raw-tick columns checked by utils.validate_columns. -/
def essentialColumns : List String := ["date", "ms_of_day", "price", "size", "condition"]

/-- The essential columns absent from a format-column list. -/
def missingEssential (cols : List String) : List String :=
  essentialColumns.filter (fun c => !cols.contains c)

/-- utils.validate_columns: raise the missing-columns ValueError (the
SchemaError of the spec taxonomy) when an essential column is structurally
absent, before any row-level parsing. -/
def validateColumns (cols : List String) : Except BuildErr Unit :=
  if (missingEssential cols).isEmpty then .ok ()
  else .error (.schemaError (missingEssential cols))

/-- Column extraction df[name] on a raw frame (rows are padded with
missing cells only defensively; mkDataFrame already guarantees the
lengths match). -/
def frameCol (f : RawFrame) (name : String) : Except BuildErr (List Cell) :=
  match f.cols.indexOf? name with
  | some j => .ok (f.rows.map (fun r => r.getD j .null))
  | none => .error (.keyError name)

/-- Largest datetime64[ns] magnitude (pandas Timestamp bounds; values
outside it coerce to NaT under errors=coerce). -/
def maxTsNs : ℤ := 9223372036854775807

/-- Leap-year test of the proleptic Gregorian calendar. -/
def isLeap (y : ℤ) : Bool :=
  (Int.emod y 4 == 0 && Int.emod y 100 != 0) || Int.emod y 400 == 0

/-- Day count of a month. -/
def daysInMonth (y m : ℤ) : ℤ :=
  if m == 2 then (if isLeap y then 29 else 28)
  else if [(4 : ℤ), 6, 9, 11].contains m then 30 else 31

/-- Days since 1970-01-01 of a civil date (the standard era-based
algorithm, as datetime libraries implement it). -/
def daysFromCivil (y m d : ℤ) : ℤ :=
  let y1 := if m ≤ 2 then y - 1 else y
  let era := Int.fdiv y1 400
  let yoe := y1 - era * 400
  let mp := Int.emod (m + 9) 12
  let doy := Int.fdiv (153 * mp + 2) 5 + d - 1
  let doe := yoe * 365 + Int.fdiv yoe 4 - Int.fdiv yoe 100 + doy
  era * 146097 + doe - 719468

/-- pd.to_datetime(cell, format=%Y%m%d, errors=coerce) for one date cell,
as days since the epoch: an integral numeric of eight digits with a valid
month/day combination inside the Timestamp bounds parses; everything else
coerces to NaT (numeric strings are not modelled; the raw feed carries
JSON numbers). -/
def parseDateCell (c : Cell) : Option ℤ :=
  match c with
  | .num q =>
    if q.den == 1 && 10000000 ≤ q.num && q.num ≤ 99991231 then
      let n := q.num
      let y := Int.tdiv n 10000
      let m := Int.emod (Int.tdiv n 100) 100
      let d := Int.emod n 100
      if 1 ≤ m && m ≤ 12 && 1 ≤ d && d ≤ daysInMonth y m then
        let days := daysFromCivil y m d
        if -maxTsNs ≤ days * nsPerDay && days * nsPerDay ≤ maxTsNs then some days
        else none
      else none
    else none
  | _ => none

/-- pd.to_timedelta(cell, unit=ms, errors=coerce) for one ms_of_day cell,
in nanoseconds: a numeric cell scales by one million (exact for the
integral millisecond counts the feed carries; the floor on fractional
sub-nanosecond values is an idealization of the conversion rounding) and
coerces to NaT outside the timedelta bounds; non-numeric cells coerce. -/
def parseMsCell (c : Cell) : Option ℤ :=
  match c with
  | .num q =>
    let ns := Int.fdiv (q.num * 1000000) (q.den : ℤ)
    if -maxTsNs ≤ ns && ns ≤ maxTsNs then some ns else none
  | _ => none

/-- pd.to_numeric(cell, errors=coerce): numerics pass through, bools map
to 0/1, anything else coerces to NaN (numeric strings are not modelled;
the raw feed carries JSON numbers). -/
def toNumericCell (c : Cell) : Option ℚ :=
  match c with
  | .num q => some q
  | .bool b => some (if b then 1 else 0)
  | _ => none

/-- astype(Int64) on one to_numeric result: the nullable integer cast is a
safe cast, so a non-integral float raises while NaN becomes NA. -/
def castInt64Nullable (oc : Option ℚ) : Except BuildErr (Option ℤ) :=
  match oc with
  | some q => if q.den == 1 then .ok (some q.num) else .error .castError
  | none => .ok none

/-- A parsed tick after process_trades_dataframe: timestamp in
nanoseconds, numeric price and size, integer condition code. -/
structure PTick where
  ts : ℤ
  price : ℚ
  size : ℚ
  cond : ℤ
deriving DecidableEq, Repr

/-- Row assembly and dropna of process_trades_dataframe: a row survives
iff its timestamp (date plus time delta), price, size and condition all
parsed (dropna on exactly those four columns), keeping arrival order. -/
def parseRows (dateC msC priceC sizeC : List Cell) (condInt : List (Option ℤ))
    (n : ℕ) : List PTick :=
  (List.range n).filterMap (fun i =>
    match parseDateCell (dateC.getD i .null), parseMsCell (msC.getD i .null),
        toNumericCell (priceC.getD i .null), toNumericCell (sizeC.getD i .null),
        condInt.getD i none with
    | some d, some ms, some p, some s, some cd =>
      some { ts := d * nsPerDay + ms, price := p, size := s, cond := cd }
    | _, _, _, _, _ => none)

/-! ## The sort of process_trades_dataframe

df_trades.sort_values(by=timestamp) with the pandas default
kind=quicksort ranks the rows by numpy argsort, whose quicksort kind is
the introsort of numpy npysort (median-of-three quicksort on the index
array, insertion sort below a 15-element partition width, heapsort once
the depth limit 2*msb(n) is exhausted). The definitions below transcribe
that algorithm; loops carry explicit fuel large enough for every run. -/

/-- Partition width below which the numpy quicksort leaves a range to the
final insertion-sort phase. -/
def SMALL_QS : ℕ := 15

/-- Key lookup v[i] (keys are the int64 timestamp values). -/
def lget (v : List ℤ) (i : ℕ) : ℤ := v.getD i 0

/-- Index-array lookup tosort[i]. -/
def tget (t : List ℕ) (i : ℕ) : ℕ := t.getD i 0

/-- Index-array swap of positions i and j. -/
def tswap (t : List ℕ) (i j : ℕ) : List ℕ :=
  (t.set i (tget t j)).set j (tget t i)

/-- Extracted slice tosort[pl..pr] (inclusive). -/
def sliceOf (t : List ℕ) (pl pr : ℕ) : List ℕ :=
  (t.drop pl).take (pr + 1 - pl)

/-- Replacement of the slice starting at pl by s. -/
def setSlice (t : List ℕ) (pl : ℕ) (s : List ℕ) : List ℕ :=
  t.take pl ++ s ++ t.drop (pl + s.length)

/-- Functional rendering of one insertion step of the final
insertion-sort phase: the imperative loop shifts the sorted prefix right
while the new key is strictly less, which places the new index after every
element whose key is less than or equal to it. -/
def npyInsert (v : List ℤ) (x : ℕ) : List ℕ → List ℕ
  | [] => [x]
  | y :: ys => if lget v x < lget v y then x :: y :: ys else y :: npyInsert v x ys

/-- The insertion-sort phase over one slice. -/
def insertionPhase (v : List ℤ) (slice : List ℕ) : List ℕ :=
  slice.foldl (fun acc x => npyInsert v x acc) []

/-- Heap access a[i] with the one-based indexing of the numpy argsort
heapsort. -/
def hget (s : List ℕ) (i : ℕ) : ℕ := s.getD (i - 1) 0

/-- Heap update a[i] := x (one-based). -/
def hset (s : List ℕ) (i : ℕ) (x : ℕ) : List ℕ := s.set (i - 1) x

/-- Sift-down loop of the numpy argsort heapsort (the inner for loop over
j <= n with the larger-child step). -/
def siftDown (v : List ℤ) (tmp : ℕ) (nn : ℕ) : ℕ → List ℕ × ℕ × ℕ → List ℕ × ℕ
  | 0, (s, i, _) => (s, i)
  | fuel+1, (s, i, j) =>
    if j ≤ nn then
      let j1 := if j < nn && lget v (hget s j) < lget v (hget s (j + 1)) then j + 1 else j
      if lget v tmp < lget v (hget s j1) then
        siftDown v tmp nn fuel (hset s i (hget s j1), j1, j1 + j1)
      else (s, i)
    else (s, i)

/-- Heap construction phase (l from n/2 down to 1). -/
def heapBuild (v : List ℤ) (nn : ℕ) : ℕ → List ℕ → List ℕ
  | 0, s => s
  | l+1, s =>
    let tmp := hget s (l + 1)
    let r := siftDown v tmp nn (nn + 1) (s, l + 1, (l + 1) * 2)
    heapBuild v nn l (hset r.1 r.2 tmp)

/-- Heap extraction phase (n down to 2). -/
def heapExtract (v : List ℤ) : ℕ → List ℕ → List ℕ
  | 0, s => s
  | 1, s => s
  | n+2, s =>
    let tmp := hget s (n + 2)
    let s1 := hset s (n + 2) (hget s 1)
    let r := siftDown v tmp (n + 1) (n + 2) (s1, 1, 2)
    heapExtract v (n + 1) (hset r.1 r.2 tmp)

/-- The numpy argsort heapsort on one extracted slice. -/
def aheapSlice (v : List ℤ) (s : List ℕ) : List ℕ :=
  heapExtract v s.length (heapBuild v s.length (s.length / 2) s)

/-- The left-to-right pivot scan: do pi := pi+1 while v[t[pi]] < vp. -/
def scanRight (v : List ℤ) (vp : ℤ) (t : List ℕ) : ℕ → ℕ → ℕ
  | 0, pi => pi
  | fuel+1, pi =>
    if lget v (tget t (pi + 1)) < vp then scanRight v vp t fuel (pi + 1) else pi + 1

/-- The right-to-left pivot scan: do pj := pj-1 while vp < v[t[pj]]. -/
def scanLeft (v : List ℤ) (vp : ℤ) (t : List ℕ) : ℕ → ℕ → ℕ
  | 0, pj => pj
  | fuel+1, pj =>
    if vp < lget v (tget t (pj - 1)) then scanLeft v vp t fuel (pj - 1) else pj - 1

/-- The partition exchange loop: scan both ways, stop when the pointers
cross, otherwise swap and continue. -/
def partLoop (v : List ℤ) (vp : ℤ) : ℕ → List ℕ × ℕ × ℕ → List ℕ × ℕ × ℕ
  | 0, s => s
  | fuel+1, (t, pi, pj) =>
    let pi2 := scanRight v vp t t.length pi
    let pj2 := scanLeft v vp t t.length pj
    if pj2 ≤ pi2 then (t, pi2, pj2)
    else partLoop v vp fuel (tswap t pi2 pj2, pi2, pj2)

/-- Most significant bit position (npy_get_msb). -/
def msbGo : ℕ → ℕ → ℕ
  | 0, _ => 0
  | fuel+1, n => if n ≤ 1 then 0 else 1 + msbGo fuel (n / 2)

/-- Position of the highest set bit of n. -/
def msbOf (n : ℕ) : ℕ := msbGo n n

/-- Main loop of numpy aquicksort over the index array: partition while
the range is wider than SMALL_QS (falling back to heapsort when the depth
budget is spent, pushing the larger partition), insertion-sort the small
ranges, and pop pending ranges until the stack empties. -/
def aquicksortLoop (v : List ℤ) :
    ℕ → List ℕ → List (ℕ × ℕ) → ℕ → ℕ → ℤ → List ℕ
  | 0, t, _, _, _, _ => t
  | fuel+1, t, stack, pl, pr, depth =>
    if SMALL_QS + pl < pr then
      if depth < 0 then
        let t1 := setSlice t pl (aheapSlice v (sliceOf t pl pr))
        match stack with
        | [] => t1
        | (pl2, pr2) :: rest => aquicksortLoop v fuel t1 rest pl2 pr2 (depth - 1)
      else
        let pm := pl + (pr - pl) / 2
        let t1 := if lget v (tget t pm) < lget v (tget t pl) then tswap t pm pl else t
        let t2 := if lget v (tget t1 pr) < lget v (tget t1 pm) then tswap t1 pr pm else t1
        let t3 := if lget v (tget t2 pm) < lget v (tget t2 pl) then tswap t2 pm pl else t2
        let vp := lget v (tget t3 pm)
        let t4 := tswap t3 pm (pr - 1)
        let s := partLoop v vp t4.length (t4, pl, pr - 1)
        let t5 := s.1
        let pi := s.2.1
        let t6 := tswap t5 pi (pr - 1)
        if pi - pl < pr - pi then
          aquicksortLoop v fuel t6 ((pi + 1, pr) :: stack) pl (pi - 1) (depth - 1)
        else
          aquicksortLoop v fuel t6 ((pl, pi - 1) :: stack) (pi + 1) pr (depth - 1)
    else
      let t1 := setSlice t pl (insertionPhase v (sliceOf t pl pr))
      match stack with
      | [] => t1
      | (pl2, pr2) :: rest => aquicksortLoop v fuel t1 rest pl2 pr2 depth

/-- numpy argsort with kind=quicksort on an int64 key column: rank the
identity index array. -/
def npArgsortQuick (v : List ℤ) : List ℕ :=
  match v.length with
  | 0 => []
  | n+1 =>
    aquicksortLoop v (2 * (n + 1) + 8) (List.range (n + 1)) [] 0 n
      (2 * (msbOf (n + 1) : ℤ))

/-- Lexicographic strict order on index positions by key value then
position: the order characterizing a stable ascending rank of the keys. -/
def lexR (v : List ℤ) (i j : ℕ) : Prop :=
  lget v i < lget v j ∨ (lget v i = lget v j ∧ i < j)

/-- The sort step of process_trades_dataframe (utils.py lines 127-128):
rank the surviving rows by the timestamp column with the pandas default
quicksort and take the rows in that order (then reset_index). -/
def sortTicks (parsed : List PTick) : List PTick :=
  (npArgsortQuick (parsed.map (fun t => t.ts))).filterMap (fun j => parsed[j]?)

/-- utils.process_trades_dataframe: parse the date, time-of-day, price,
size and condition columns (the condition column passes through the safe
astype(Int64) cast, which can raise on non-integral floats before the
dropna), drop rows with a missing essential value, then sort by timestamp. -/
def processTradesDataframe (f : RawFrame) : Except BuildErr (List PTick) := do
  let dateC ← frameCol f "date"
  let msC ← frameCol f "ms_of_day"
  let priceC ← frameCol f "price"
  let sizeC ← frameCol f "size"
  let condC ← frameCol f "condition"
  let condInt ← exceptMap castInt64Nullable (condC.map toNumericCell)
  pure (sortTicks (parseRows dateC msC priceC sizeC condInt f.rows.length))

/-- A normalized tick merged with its condition-table attributes (one row
of the frame merge_trade_conditions returns). -/
structure MTick where
  tick : PTick
  lastC : Cell
  highC : Cell
  lowC : Cell
  openreportC : Cell
  volumeC : Cell
  nameC : Cell
deriving DecidableEq, Repr

/-- utils.merge_trade_conditions: left join of the ticks with the
lowercase attribute columns of the condition table on condition == code
(KeyError when a required column is absent; the spec makes code a unique
key, so the join is modelled by the first matching table row), filling the
five flag columns of unmatched codes with False. -/
def mergeTradeConditions (ticks : List PTick) (tbl : Table) :
    Except BuildErr (List MTick) := do
  let codeC ← getCol tbl "code"
  let lastC ← getCol tbl "last"
  let highC ← getCol tbl "high"
  let lowC ← getCol tbl "low"
  let orC ← getCol tbl "openreport"
  let volC ← getCol tbl "volume"
  let nameC ← getCol tbl "name"
  pure (ticks.map (fun t =>
    match (List.range codeC.length).find? (fun i => cellEqInt (codeC.getD i .null) t.cond) with
    | some i =>
      ⟨t, lastC.getD i .null, highC.getD i .null, lowC.getD i .null,
        orC.getD i .null, volC.getD i .null, nameC.getD i .null⟩
    | none => ⟨t, .bool false, .bool false, .bool false, .bool false, .bool false, .null⟩))

/-- builder.OHLCVCBuilder._create_dataframe: build the frame from the raw
trades and format columns, validate the essential columns (before any
row-level parsing; the Except chain performs no later step after a
failure), process, and merge the condition attributes (the optional
exchange-code merge is the disabled exchange_codes_df=None mode). -/
def createDataframe (trades : List (List Cell)) (fmt : List String) (tcond : Table) :
    Except BuildErr (List MTick) := do
  let f ← mkDataFrame trades fmt
  validateColumns f.cols
  let ticks ← processTradesDataframe f
  mergeTradeConditions ticks tcond

/-- The state an OHLCVCBuilder holds after __init__. -/
structure BuilderState where
  eligibleConditions : List ℤ
  volumeTrueConditions : List ℤ
  dfTrades : List MTick
deriving DecidableEq, Repr

/-- builder.OHLCVCBuilder.__init__: precompute the eligible condition set
(Cancel == False) and the volume-true set (Volume == True) from the
condition table with the capitalized column names, then create the
DataFrame. -/
def builderInit (trades : List (List Cell)) (fmt : List String) (tcond : Table) :
    Except BuildErr BuilderState := do
  let elig ← determineConditions tcond "Cancel" false
  let vol ← determineConditions tcond "Volume" true
  let df ← createDataframe trades fmt tcond
  pure ⟨elig, vol, df⟩

/-! ## Claim-level models -/

/-- Modelled from the spec: the close pass exactly as claim C1 and spec
section 4.2 word it, namely a single left-to-right scan over the ticks of
one interval in which every decision mutates the per-interval flag state
that subsequent ticks observe. A definite tick (last-eligible true) takes
the flag when scanned; codes 2, 5, 8 take it iff the interval holds
exactly one conditional-coded tick; code 13 takes it iff no tick of the
interval has the flag at the moment it is evaluated; code 15 iff the tick
is first in the interval; codes 96, 98 iff it is last. -/
def specScanGo (condCount n : ℕ) (seen : Bool) (i : ℕ) : List Trade → List Bool
  | [] => []
  | t :: rest =>
    let b :=
      if t.lastA = TriState.tt then true
      else if [(2 : ℤ), 5, 8].contains t.cond then condCount == 1
      else if t.cond = 13 then !seen
      else if t.cond = 15 then i == 0
      else if [(96 : ℤ), 98].contains t.cond then i == n - 1
      else false
    b :: specScanGo condCount n (seen || b) (i + 1) rest

/-- The order-sensitive interval scan of claim C1, over one interval. -/
def specScanInterval (g : List Trade) : List Bool :=
  specScanGo ((g.filter (fun u => condCodes.contains u.cond)).length) g.length false 0 g

/-- The property claim C1 asserts of the close pass, stated on a row list
lying (like the scenarios of the claim) in a single 1-minute interval:
after the close pass every code-13 row carries exactly the flag of the
claimed order-sensitive scan, in which earlier granted flags of the same
interval suppress a later code-13 tick. -/
def code13ClaimHolds (rows : List Row) : Prop :=
  ∀ i, i < rows.length → (rows.map (fun r => r.1.cond))[i]? = some 13 →
    ((applyCloseConditions rows).map (fun r => r.2.inClose))[i]? =
      (specScanInterval (rows.map Prod.fst))[i]?

/-! ## Concrete inputs used by the claim theorems -/

/-- All-false flag record (the flag columns before any pass). -/
def noFlags : Flags := ⟨false, false, false, false, false, false⟩

/-- Flag record whose only set flag is include_in_close. -/
def closeFlag : Flags := ⟨false, false, false, false, true, false⟩

/-- Eligible-condition set containing every code. -/
def eligAll : ℤ → Bool := fun _ => true

/-- Empty eligible-condition set. -/
def eligNone : ℤ → Bool := fun _ => false

/-- Empty volume-true set. -/
def volNone : ℤ → Bool := fun _ => false

/-- Volume-true set containing only code 1. -/
def volOnly1 : ℤ → Bool := fun c => c == 1

/-- Trade constructor for the examples (High and Low attributes true). -/
def mkTrade (ts : ℤ) (p s : ℚ) (c : ℤ) (la : TriState) : Trade :=
  ⟨ts, p, s, c, la, true, true⟩

/-- Two ticks in one minute: a code-15 tick (first of the interval, so the
scan grants it the flag) followed by a code-13 tick; no definite-last
tick anywhere. -/
def ex15then13 : List Row :=
  [(mkTrade 0 100 1 15 .conditional, noFlags),
   (mkTrade 1000000000 101 1 13 .conditional, noFlags)]

/-- A definite-last tick followed in the same minute by a code-13 tick. -/
def exDefThen13 : List Row :=
  [(mkTrade 0 100 10 1 .tt, noFlags),
   (mkTrade 1000000000 101 5 13 .conditional, noFlags)]

/-- Three ticks in minutes 0 and 2 with minute 1 empty; bar 0 gets open
100 and close 105, making the per-column forward fill of the empty bucket
visible. -/
def exGapTrades : List Row :=
  [(mkTrade 0 100 10 1 .ff, noFlags),
   (mkTrade 1000000000 105 5 1 .tt, noFlags),
   (mkTrade (2 * nsPerMinute) 200 7 1 .tt, noFlags)]

/-- The gap example after the classifier passes. -/
def exGapClassified : List Row := applyConditionsSequentially eligAll volNone exGapTrades

/-- One tick that no pass flags (its condition is eligible for nothing). -/
def exFirstTrades : List Row := [(mkTrade 0 42 1 1 .ff, noFlags)]

/-- The single-ineligible-tick example after the classifier passes. -/
def exFirstClassified : List Row := applyConditionsSequentially eligNone volNone exFirstTrades

/-- A volume-flagged tick in minute 0 and an unflagged tick in minute 1
(minute 1 lies right of the volume resample span). -/
def exVolTrades : List Row :=
  [(mkTrade 0 100 5 1 .ff, noFlags),
   (mkTrade nsPerMinute 101 7 2 .ff, noFlags)]

/-- The volume example after the classifier passes. -/
def exVolClassified : List Row := applyConditionsSequentially eligAll volOnly1 exVolTrades

/-- Volume-flagged ticks in minutes 0 and 2 with an unflagged tick in
minute 1, so minute 1 lies inside the volume span with no flagged tick. -/
def exVolWTrades : List Row :=
  [(mkTrade 0 100 5 1 .ff, noFlags),
   (mkTrade nsPerMinute 101 7 2 .ff, noFlags),
   (mkTrade (2 * nsPerMinute) 102 3 1 .ff, noFlags)]

/-- The in-span volume example after the classifier passes. -/
def exVolWClassified : List Row := applyConditionsSequentially eligAll volOnly1 exVolWTrades

/-- A bucket with a flagged tick before an unflagged last tick. -/
def exCloseBucket : List Row :=
  [(mkTrade 0 100 1 1 .ff, closeFlag),
   (mkTrade 1000000000 101 1 1 .ff, noFlags)]

/-- One tick exactly at 09:30:00. -/
def exRTHRows : List Row := [(mkTrade 34200000000000 1 1 1 .ff, noFlags)]

/-- Seventeen raw ticks sharing one timestamp, prices 0..16 in arrival
order. -/
def exFrame17 : RawFrame :=
  ⟨["date", "ms_of_day", "price", "size", "condition"],
   (List.range 17).map (fun i =>
     [.num 20240102, .num 34200000, .num (i : ℚ), .num 1, .num 0])⟩

/-- The common timestamp of the seventeen ticks (2024-01-02 09:30). -/
def ts17 : ℤ := 19724 * nsPerDay + 34200000 * nsPerMs

/-- The seventeen parsed ticks in arrival order. -/
def exArrival17 : List PTick :=
  (List.range 17).map (fun i => ⟨ts17, (i : ℚ), 1, 0⟩)

/-- The normalizer output on the seventeen-tick frame. -/
def out17 : List PTick := (processTradesDataframe exFrame17).toOption.getD []

/-- Three parsed ticks with a timestamp tie between the first and third. -/
def exParsed3 : List PTick := [⟨100, 1, 1, 0⟩, ⟨50, 2, 1, 0⟩, ⟨100, 3, 1, 0⟩]

/-- A format-column list missing the essential price column. -/
def exBadFmt : List String := ["date", "ms_of_day", "size", "condition"]

/-- A raw row matching the bad format. -/
def exBadTrades : List (List Cell) := [[.num 20240102, .num 0, .num 1, .num 0]]

/-- An all-lowercase condition table shaped like the loader output. -/
def exLowerTbl : Table := expectedColumns.map (fun n => (n, []))

end OHLCVC

deriving instance DecidableEq for Except

namespace OHLCVC

/-! ## Helper lemmas -/

theorem any_enumFrom (l : List α) (n : ℕ) (q : α → Bool) :
    (l.enumFrom n).any (fun p => q p.2) = l.any q := by
  induction l generalizing n with
  | nil => rfl
  | cons a l ih => simp [List.enumFrom, List.any_cons, ih]

theorem any_enum (l : List α) (q : α → Bool) :
    (l.enum).any (fun p => q p.2) = l.any q :=
  any_enumFrom l 0 q

theorem pairwise_getLast (R : α → α → Prop) :
    ∀ (l : List α), l.Pairwise R → ∀ x ∈ l, ∀ y, l.getLast? = some y → x = y ∨ R x y := by
  intro l
  induction l with
  | nil => intro _ x hx; cases hx
  | cons a l ih =>
    intro hp x hx y hy
    rcases List.pairwise_cons.mp hp with ⟨ha, hl⟩
    cases l with
    | nil =>
      simp only [List.getLast?_singleton, Option.some.injEq] at hy
      rcases List.mem_singleton.mp hx with rfl
      exact Or.inl hy
    | cons b m =>
      rw [List.getLast?_cons_cons] at hy
      rcases List.mem_cons.mp hx with rfl | hx2
      · exact Or.inr (ha y (List.mem_of_getLast?_eq_some hy))
      · exact ih hl x hx2 y hy

/-! ## Claim C7: the RTH window -/

/-- Claim C7: a tick is classified in-RTH iff its clock time lies in the
half-open window from 09:30:00 inclusive to 16:00:00 exclusive; a tick at
exactly 09:30:00 is RTH and one at exactly 16:00:00 is not. -/
theorem claim_C7_rth_window (elig : ℤ → Bool) (rows : List Row) (i : ℕ)
    (t : Trade) (f : Flags) (hi : rows[i]? = some (t, f)) :
    (applyGeneralConditions elig rows)[i]? = some (gPassRow elig (t, f)) ∧
    ((gPassRow elig (t, f)).2.rth = true ↔
      ((34200000000000 : ℤ) ≤ todOf t.ts ∧ todOf t.ts < 57600000000000)) ∧
    (todOf t.ts = 34200000000000 → (gPassRow elig (t, f)).2.rth = true) ∧
    (todOf t.ts = 57600000000000 → (gPassRow elig (t, f)).2.rth = false) := by
  refine ⟨?_, ?_, ?_, ?_⟩
  · simp [applyGeneralConditions, hi]
  · simp [gPassRow, inRTH]
  · intro h; simp [gPassRow, inRTH, h]
  · intro h; simp [gPassRow, inRTH, h]

/-- Witness for C7 at a tick stamped exactly 09:30:00. -/
theorem claim_C7_rth_window_witness :
    (applyGeneralConditions eligAll exRTHRows)[0]? =
      some (gPassRow eligAll (mkTrade 34200000000000 1 1 1 .ff, noFlags)) ∧
    ((gPassRow eligAll (mkTrade 34200000000000 1 1 1 .ff, noFlags)).2.rth = true ↔
      ((34200000000000 : ℤ) ≤ todOf (mkTrade 34200000000000 1 1 1 .ff).ts ∧
        todOf (mkTrade 34200000000000 1 1 1 .ff).ts < 57600000000000)) ∧
    (todOf (mkTrade 34200000000000 1 1 1 .ff).ts = 34200000000000 →
      (gPassRow eligAll (mkTrade 34200000000000 1 1 1 .ff, noFlags)).2.rth = true) ∧
    (todOf (mkTrade 34200000000000 1 1 1 .ff).ts = 57600000000000 →
      (gPassRow eligAll (mkTrade 34200000000000 1 1 1 .ff, noFlags)).2.rth = false) :=
  claim_C7_rth_window eligAll exRTHRows 0 (mkTrade 34200000000000 1 1 1 .ff) noFlags (by rfl)

/-! ## Claim C1: the code-13 close tie-break -/

/-- Counterexample to claim C1: on an interval holding a code-15 tick
(which the scan resolves first and grants the flag) followed by a code-13
tick, the claim requires the earlier-resolved conditional tick to
suppress the code-13 tick, but the close pass grants the code-13 flag
anyway: its check reads the groupby snapshot of the base flags, on which
no tick of the interval is flagged. -/
theorem claim_C1_counterexample : ¬ code13ClaimHolds ex15then13 := fun h =>
  absurd (h 1 (by decide) (by decide)) (by decide)

/-- Claim C1 as amended: after the close pass a code-13 row carries the
flag iff it is itself definite-last or no row of its 1-minute interval is
definite-last (Last == True). The snapshot consulted by the scan carries
only the definite base flags, so earlier-resolved conditional ticks of
the interval never suppress a code-13 tick, while a definite-last tick
anywhere in the interval, earlier or later, always does. In particular
one definite-last tick followed later in the same interval by one code-13
tick leaves the code-13 flag false and the bar close is the definite
price (retained part of the original claim). -/
theorem claim_C1_amended :
    (∀ (rows : List Row) (i : ℕ) (t : Trade) (f : Flags),
      rows[i]? = some (t, f) → t.cond = 13 →
      (applyCloseConditions rows)[i]? =
        some (t, { f with inClose := lastIsTrue t ||
          !(rows.any (fun r =>
            (bucketOf r.1.ts == bucketOf t.ts) && lastIsTrue r.1)) })) ∧
    (applyConditionsSequentially eligAll volNone exDefThen13).map
      (fun r => r.2.inClose) = [true, false] ∧
    (calculateOHLCVC (applyConditionsSequentially eligAll volNone exDefThen13)).map
      (fun p => p.2.cl) = [some 100] := by
  refine ⟨?_, by decide, by decide⟩
  intro rows i t f hi h13
  have hbase : (rows.map baseClose)[i]? = some (baseClose (t, f)) := by
    simp [hi]
  have henum : (rows.map baseClose).enum[i]? = some (i, baseClose (t, f)) := by
    rw [List.getElem?_enum, hbase]; rfl
  simp only [applyCloseConditions, List.getElem?_map, henum, Option.map_some']
  have hc : condCodes.contains t.cond = true := by
    rw [h13]; rfl
  have h258 : [(2 : ℤ), 5, 8].contains t.cond = false := by
    rw [h13]; rfl
  have hg : closeGrant (rows.map baseClose).enum i t =
      !(rows.any (fun r => (bucketOf r.1.ts == bucketOf t.ts) && lastIsTrue r.1)) := by
    rw [closeGrant]
    rw [h258]
    simp only [Bool.false_eq_true, if_false, h13]
    rw [if_pos (by rfl)]
    rw [List.any_filter]
    rw [List.enum]
    rw [any_enumFrom (rows.map baseClose) 0
      (fun r => (bucketOf r.1.ts == bucketOf t.ts) && r.2.inClose)]
    rw [List.any_map]
    have hfun : ((fun r : Row => bucketOf r.1.ts == bucketOf t.ts && r.2.inClose) ∘ baseClose)
        = (fun r : Row => bucketOf r.1.ts == bucketOf t.ts && lastIsTrue r.1) := by
      funext r
      rcases r with ⟨tr, fl⟩
      simp [Function.comp, baseClose]
    rw [hfun]
  simp only [baseClose]
  rw [hc, hg]
  simp

/-- Witness for the amended C1 at the code-13 row of the two-tick
interval. -/
theorem claim_C1_amended_witness :
    (applyCloseConditions ex15then13)[1]? =
      some (mkTrade 1000000000 101 1 13 .conditional,
        { noFlags with inClose := lastIsTrue (mkTrade 1000000000 101 1 13 .conditional) ||
          !(ex15then13.any (fun r =>
            (bucketOf r.1.ts == bucketOf (mkTrade 1000000000 101 1 13 .conditional).ts) &&
              lastIsTrue r.1)) }) :=
  claim_C1_amended.1 ex15then13 1 (mkTrade 1000000000 101 1 13 .conditional) noFlags
    (by rfl) (by rfl)

/-! ## Claim C4: the close reduction of a bucket -/

/-- Claim C4: the bucket close is the price of the last flagged row (the
latest-timestamp flagged tick when the bucket is time sorted); with no
flagged row it falls back to the last row price regardless of flags; an
empty bucket has no close before gap fill; and calculate_ohlcvc uses
exactly this reduction for its raw close cells. -/
theorem claim_C4_get_close :
    (∀ g : List Row, g = [] → getClose g = none) ∧
    (∀ g : List Row, g ≠ [] → (∀ r ∈ g, r.2.inClose = false) →
      getClose g = g.getLast?.map (fun r => r.1.price)) ∧
    (∀ (g : List Row) (w : Row),
      (g.filter (fun r => r.2.inClose)).getLast? = some w →
      getClose g = some w.1.price ∧
      (g.Pairwise (fun a b => a.1.ts ≤ b.1.ts) →
        ∀ r ∈ g, r.2.inClose = true → r.1.ts ≤ w.1.ts)) ∧
    (∀ (rows : List Row) (b : ℤ), rawClose rows b = getClose (ticksIn rows b)) := by
  refine ⟨?_, ?_, ?_, fun _ _ => rfl⟩
  · intro g hg; subst hg; rfl
  · intro g hg hall
    have hf : g.filter (fun r => r.2.inClose) = [] := by
      rw [List.filter_eq_nil_iff]
      intro a ha
      simp [hall a ha]
    have hge : g.isEmpty = false := by
      cases g with
      | nil => exact absurd rfl hg
      | cons a l => rfl
    simp [getClose, hf, hge]
  · intro g w hw
    have hne : (g.filter (fun r => r.2.inClose)).isEmpty = false := by
      cases hfe : g.filter (fun r => r.2.inClose) with
      | nil => rw [hfe] at hw; cases hw
      | cons a l => rfl
    constructor
    · simp [getClose, hne, hw]
    · intro hsorted r hr hflag
      have hrf : r ∈ g.filter (fun r => r.2.inClose) := by
        rw [List.mem_filter]; exact ⟨hr, hflag⟩
      have hp : (g.filter (fun r => r.2.inClose)).Pairwise
          (fun a b => a.1.ts ≤ b.1.ts) := hsorted.filter _
      rcases pairwise_getLast _ _ hp r hrf w hw with rfl | hle
      · exact le_refl _
      · exact hle

/-- Witness for C4 at a bucket whose flagged tick precedes an unflagged
last tick. -/
theorem claim_C4_get_close_witness :
    getClose exCloseBucket = some ((100 : ℚ)) :=
  (claim_C4_get_close.2.2.1 exCloseBucket (mkTrade 0 100 1 1 .ff, closeFlag) (by rfl)).1

/-! ## Claim C5: sequential versus concurrent classifier passes -/

theorem gPassRow_fst (elig : ℤ → Bool) (r : Row) : (gPassRow elig r).1 = r.1 := rfl

theorem vPassRow_fst (volC : ℤ → Bool) (r : Row) : (vPassRow volC r).1 = r.1 := rfl

theorem gPassRow_inClose (elig : ℤ → Bool) (r : Row) :
    (gPassRow elig r).2.inClose = r.2.inClose := rfl

theorem vPassRow_inClose (volC : ℤ → Bool) (r : Row) :
    (vPassRow volC r).2.inClose = r.2.inClose := rfl

theorem filter_entries_map (idxd : List (ℕ × Row)) (f : Row → Row)
    (h1 : ∀ r, (f r).1 = r.1) (q : Trade → Bool) :
    (idxd.map (fun p => (p.1, f p.2))).filter (fun p => q p.2.1) =
      (idxd.filter (fun p => q p.2.1)).map (fun p => (p.1, f p.2)) := by
  rw [List.filter_map]
  congr 1
  apply List.filter_congr
  intro p _
  simp [Function.comp, h1]

theorem closeGrant_entries_map (idxd : List (ℕ × Row)) (f : Row → Row)
    (h1 : ∀ r, (f r).1 = r.1) (h2 : ∀ r, (f r).2.inClose = r.2.inClose)
    (i : ℕ) (t : Trade) :
    closeGrant (idxd.map (fun p => (p.1, f p.2))) i t = closeGrant idxd i t := by
  simp only [closeGrant]
  rw [filter_entries_map idxd f h1 (fun u => bucketOf u.ts == bucketOf t.ts)]
  rw [filter_entries_map _ f h1 (fun u => condCodes.contains u.cond)]
  rw [List.length_map]
  rw [List.any_map]
  have hany : ((fun p : ℕ × Row => p.2.2.inClose) ∘ (fun p : ℕ × Row => (p.1, f p.2)))
      = (fun p : ℕ × Row => p.2.2.inClose) := funext fun p => h2 p.2
  rw [hany]
  rw [List.head?_map, List.getLast?_map, Option.map_map, Option.map_map]
  have hfst : (Prod.fst ∘ (fun p : ℕ × Row => (p.1, f p.2))) = Prod.fst :=
    funext fun p => rfl
  rw [hfst]

theorem applyClose_map_comm (f : Row → Row)
    (h1 : ∀ r, (f r).1 = r.1)
    (h2 : ∀ r, (f r).2.inClose = r.2.inClose)
    (hcomm : ∀ (t : Trade) (fl : Flags) (b : Bool),
      f (t, { fl with inClose := b }) = ((f (t, fl)).1, { (f (t, fl)).2 with inClose := b }))
    (rows : List Row) :
    applyCloseConditions (rows.map f) = (applyCloseConditions rows).map f := by
  have hbase : (rows.map f).map baseClose = (rows.map baseClose).map f := by
    rw [List.map_map, List.map_map]
    apply List.map_congr_left
    intro r _
    rcases r with ⟨t, fl⟩
    show baseClose (f (t, fl)) = f (baseClose (t, fl))
    have e1 : baseClose (f (t, fl)) =
        ((f (t, fl)).1, { (f (t, fl)).2 with inClose := lastIsTrue t }) := by
      show ((f (t, fl)).1, { (f (t, fl)).2 with inClose := lastIsTrue (f (t, fl)).1 }) = _
      rw [h1 (t, fl)]
    have e2 : f (baseClose (t, fl)) =
        ((f (t, fl)).1, { (f (t, fl)).2 with inClose := lastIsTrue t }) :=
      hcomm t fl (lastIsTrue t)
    exact e1.trans e2.symm
  have hPm : Prod.map (@id ℕ) f = (fun p : ℕ × Row => (p.1, f p.2)) :=
    funext fun p => rfl
  simp only [applyCloseConditions]
  rw [hbase, List.enum_map, hPm, List.map_map, List.map_map]
  apply List.map_congr_left
  intro p _
  rcases p with ⟨i, t0, fl0⟩
  dsimp only [Function.comp]
  rw [closeGrant_entries_map _ f h1 h2]
  rw [hcomm t0 fl0 (fl0.inClose ||
    (condCodes.contains t0.cond && closeGrant (rows.map baseClose).enum i t0))]
  rw [h1 (t0, fl0), h2 (t0, fl0)]

theorem gc_comm (elig : ℤ → Bool) (rows : List Row) :
    applyCloseConditions (applyGeneralConditions elig rows) =
      applyGeneralConditions elig (applyCloseConditions rows) :=
  applyClose_map_comm (gPassRow elig) (fun _ => rfl) (fun _ => rfl)
    (fun t fl b => by simp [gPassRow]) rows

theorem vc_comm (volC : ℤ → Bool) (rows : List Row) :
    applyCloseConditions (applyVolumeConditions volC rows) =
      applyVolumeConditions volC (applyCloseConditions rows) :=
  applyClose_map_comm (vPassRow volC) (fun _ => rfl) (fun _ => rfl)
    (fun t fl b => by simp [vPassRow]) rows

theorem gv_comm (elig volC : ℤ → Bool) (rows : List Row) :
    applyVolumeConditions volC (applyGeneralConditions elig rows) =
      applyGeneralConditions elig (applyVolumeConditions volC rows) := by
  simp only [applyVolumeConditions, applyGeneralConditions, List.map_map]
  apply List.map_congr_left
  intro r _
  rcases r with ⟨t, fl⟩
  simp [Function.comp, vPassRow, gPassRow]

/-- Claim C5: the classified flags are identical whether the three
classifier passes run sequentially or as concurrently scheduled tasks
(modelled as an arbitrary execution order of the submitted passes; see
concurrentApply). -/
theorem claim_C5_concurrent_equals_sequential (elig volC : ℤ → Bool)
    (rows : List Row) (sched : List (List Row → List Row))
    (hs : sched.Perm
      [applyGeneralConditions elig, applyCloseConditions, applyVolumeConditions volC]) :
    concurrentApply sched rows = applyConditionsSequentially elig volC rows := by
  have comm : ∀ x ∈ sched, ∀ y ∈ sched, ∀ z : List Row, y (x z) = x (y z) := by
    intro x hx y hy z
    have hx2 : x ∈ [applyGeneralConditions elig, applyCloseConditions,
        applyVolumeConditions volC] := hs.mem_iff.mp hx
    have hy2 : y ∈ [applyGeneralConditions elig, applyCloseConditions,
        applyVolumeConditions volC] := hs.mem_iff.mp hy
    simp only [List.mem_cons, List.mem_singleton, List.not_mem_nil, or_false] at hx2 hy2
    rcases hx2 with rfl | rfl | rfl <;> rcases hy2 with rfl | rfl | rfl
    · rfl
    · exact gc_comm elig z
    · exact gv_comm elig volC z
    · exact (gc_comm elig z).symm
    · rfl
    · exact (vc_comm volC z).symm
    · exact (gv_comm elig volC z).symm
    · exact vc_comm volC z
    · rfl
  exact (hs.foldl_eq' comm rows).trans rfl

/-- Witness for C5: one concrete non-sequential schedule of the three
passes yields the sequential result. -/
theorem claim_C5_concurrent_equals_sequential_witness :
    concurrentApply
      [applyGeneralConditions eligAll, applyVolumeConditions volNone, applyCloseConditions]
      exGapTrades = applyConditionsSequentially eligAll volNone exGapTrades :=
  claim_C5_concurrent_equals_sequential eligAll volNone exGapTrades
    [applyGeneralConditions eligAll, applyVolumeConditions volNone, applyCloseConditions]
    (List.Perm.cons (applyGeneralConditions eligAll)
      (List.Perm.swap applyCloseConditions (applyVolumeConditions volNone) []))

/-! ## Aggregation lemmas (forward fill and frame assembly) -/

theorem length_ffill1 (init : Option α) (xs : List (Option α)) :
    (ffill1 init xs).length = xs.length := by
  induction xs generalizing init with
  | nil => rfl
  | cons x xs ih =>
    cases x with
    | none => simp [ffill1, ih]
    | some v => simp [ffill1, ih]

theorem ffill1_getElem? (xs : List (Option α)) (init : Option α) (i : ℕ)
    (h : i < xs.length) :
    (ffill1 init xs)[i]? = some (lastVal init (xs.take (i + 1))) := by
  induction xs generalizing init i with
  | nil => cases h
  | cons x xs ih =>
    cases x with
    | none =>
      cases i with
      | zero => simp [ffill1, lastVal]
      | succ j =>
        have hj : j < xs.length := Nat.lt_of_succ_lt_succ h
        simpa [ffill1, lastVal] using ih init j hj
    | some v =>
      cases i with
      | zero => simp [ffill1, lastVal]
      | succ j =>
        have hj : j < xs.length := Nat.lt_of_succ_lt_succ h
        simpa [ffill1, lastVal] using ih (some v) j hj

theorem ffill1_getD (init : Option α) (xs : List (Option α)) (i : ℕ)
    (h : i < xs.length) :
    (ffill1 init xs).getD i none = lastVal init (xs.take (i + 1)) := by
  rw [List.getD_eq_getElem?_getD, ffill1_getElem? xs init i h]
  rfl

theorem lastVal_append (init : Option α) (a b : List (Option α)) :
    lastVal init (a ++ b) = lastVal (lastVal init a) b := by
  simp [lastVal, List.foldl_append]

theorem lastVal_take_succ_of_some (init : Option α) (xs : List (Option α))
    (i : ℕ) (v : α) (hc : xs[i]? = some (some v)) :
    lastVal init (xs.take (i + 1)) = some v := by
  rw [List.take_succ, hc]
  rw [lastVal_append]
  rfl

theorem lastVal_take_succ_of_none (init : Option α) (xs : List (Option α))
    (i : ℕ) (hc : xs[i]? = some none) :
    lastVal init (xs.take (i + 1)) = lastVal init (xs.take i) := by
  rw [List.take_succ, hc]
  rw [lastVal_append]
  rfl

theorem lastVal_eq_some (init : Option α) (xs : List (Option α)) (v : α) :
    lastVal init xs = some v → some v ∈ xs ∨ init = some v := by
  induction xs generalizing init with
  | nil => intro h; exact Or.inr h
  | cons x xs ih =>
    intro h
    rcases x with _ | w
    · rcases ih init h with hm | hi
      · exact Or.inl (List.mem_cons_of_mem _ hm)
      · exact Or.inr hi
    · rcases ih (some w) h with hm | hi
      · exact Or.inl (List.mem_cons_of_mem _ hm)
      · exact Or.inl (hi ▸ List.mem_cons_self _ _)

theorem intRange_getD (lo hi : ℤ) (i : ℕ) (h : i < (hi + 1 - lo).toNat) :
    (intRange lo hi).getD i 0 = lo + i := by
  simp only [intRange]
  rw [List.getD_eq_getElem?_getD, List.getElem?_map, List.getElem?_range h]
  rfl

theorem calc_getElem? (rows : List Row) (i : ℕ) (h : i < (spanList rows).length) :
    (calculateOHLCVC rows)[i]? = some ((spanList rows).getD i 0,
      { op := (ffill1 none ((spanList rows).map (rawOpen rows))).getD i none
        hi := (ffill1 none ((spanList rows).map (rawHigh rows))).getD i none
        lo := (ffill1 none ((spanList rows).map (rawLow rows))).getD i none
        cl := (ffill1 none ((spanList rows).map (rawClose rows))).getD i none
        vol := (ffill1 none ((spanList rows).map (rawVol rows))).getD i none
        cnt := ((spanList rows).map (rawCnt rows)).getD i 0 }) := by
  simp only [calculateOHLCVC]
  rw [List.getElem?_map, List.getElem?_range h]
  rfl

theorem spanList_getElem?_some (rows : List Row) (i : ℕ)
    (h : i < (spanList rows).length) :
    (spanList rows)[i]? = some ((spanList rows).getD i 0) := by
  rw [List.getD_eq_getElem?_getD, List.getElem?_eq_getElem h]
  rfl

theorem mapped_col_getElem? (rows : List Row) (f : ℤ → Option α) (i : ℕ)
    (h : i < (spanList rows).length) :
    ((spanList rows).map f)[i]? = some (f ((spanList rows).getD i 0)) := by
  rw [List.getElem?_map, spanList_getElem?_some rows i h]
  rfl

theorem col_getD_at (rows : List Row) (f : ℤ → Option α) (i : ℕ)
    (h : i < (spanList rows).length) :
    (ffill1 none ((spanList rows).map f)).getD i none =
      lastVal none (((spanList rows).map f).take (i + 1)) := by
  apply ffill1_getD
  rw [List.length_map]
  exact h

theorem col_getD_succ_none (rows : List Row) (f : ℤ → Option α) (j : ℕ)
    (h : j + 1 < (spanList rows).length)
    (hnone : f ((spanList rows).getD (j + 1) 0) = none) :
    (ffill1 none ((spanList rows).map f)).getD (j + 1) none =
      (ffill1 none ((spanList rows).map f)).getD j none := by
  rw [col_getD_at rows f (j + 1) h, col_getD_at rows f j (Nat.lt_of_succ_lt h)]
  apply lastVal_take_succ_of_none
  rw [mapped_col_getElem? rows f (j + 1) h, hnone]

theorem col_getD_some (rows : List Row) (f : ℤ → Option α) (i : ℕ)
    (h : i < (spanList rows).length) (v : α)
    (hsome : f ((spanList rows).getD i 0) = some v) :
    (ffill1 none ((spanList rows).map f)).getD i none = some v := by
  rw [col_getD_at rows f i h]
  apply lastVal_take_succ_of_some
  rw [mapped_col_getElem? rows f i h, hsome]

theorem col_getD_mem (rows : List Row) (f : ℤ → Option α) (i : ℕ)
    (h : i < (spanList rows).length) (v : α)
    (hv : (ffill1 none ((spanList rows).map f)).getD i none = some v) :
    ∃ b2, b2 ∈ spanList rows ∧ f b2 = some v := by
  rw [col_getD_at rows f i h] at hv
  rcases lastVal_eq_some none _ v hv with hm | hi
  · have hm2 := List.mem_of_mem_take hm
    rcases List.mem_map.mp hm2 with ⟨b2, hb2, hf⟩
    exact ⟨b2, hb2, hf⟩
  · cases hi

theorem cnt_getD (rows : List Row) (i : ℕ) (h : i < (spanList rows).length) :
    ((spanList rows).map (rawCnt rows)).getD i 0 =
      rawCnt rows ((spanList rows).getD i 0) := by
  rw [List.getD_eq_getElem?_getD, List.getElem?_map, spanList_getElem?_some rows i h]
  rfl

theorem calc_length (rows : List Row) :
    (calculateOHLCVC rows).length = (spanList rows).length := by
  simp [calculateOHLCVC]

theorem getClose_ne_none (g : List Row) (hg : g ≠ []) : getClose g ≠ none := by
  rw [getClose]
  cases hf : g.filter (fun r => r.2.inClose) with
  | nil =>
    have hge : g.isEmpty = false := by
      cases g with
      | nil => exact absurd rfl hg
      | cons a l => rfl
    simp only [hf, List.isEmpty_nil, Bool.not_true, Bool.false_eq_true, if_false, hge,
      Bool.not_false, if_true]
    cases hl : g.getLast? with
    | none => exact absurd (List.getLast?_eq_none_iff.mp hl) hg
    | some w => simp
  | cons a l => simp

theorem calc_inv (rows : List Row) (i : ℕ) (b : ℤ) (bar : Bar)
    (hc : (calculateOHLCVC rows)[i]? = some (b, bar)) :
    i < (spanList rows).length ∧ b = (spanList rows).getD i 0 ∧
    bar.op = (ffill1 none ((spanList rows).map (rawOpen rows))).getD i none ∧
    bar.hi = (ffill1 none ((spanList rows).map (rawHigh rows))).getD i none ∧
    bar.lo = (ffill1 none ((spanList rows).map (rawLow rows))).getD i none ∧
    bar.cl = (ffill1 none ((spanList rows).map (rawClose rows))).getD i none ∧
    bar.vol = (ffill1 none ((spanList rows).map (rawVol rows))).getD i none ∧
    bar.cnt = ((spanList rows).map (rawCnt rows)).getD i 0 := by
  have hlen : i < (spanList rows).length := by
    by_contra hno
    push_neg at hno
    have hnone : (calculateOHLCVC rows)[i]? = none := by
      apply List.getElem?_eq_none
      rw [calc_length]
      exact hno
    rw [hnone] at hc
    cases hc
  have hinv := calc_getElem? rows i hlen
  rw [hc] at hinv
  simp only [Option.some.injEq, Prod.mk.injEq] at hinv
  obtain ⟨hb, hbar⟩ := hinv
  subst hb
  subst hbar
  exact ⟨hlen, rfl, rfl, rfl, rfl, rfl, rfl, rfl⟩

/-! ## Claim C2: gap fill -/

/-- Claim C2 as amended: the DataFrame-wide fillna(method=ffill) fills
every column independently with that column's own previous non-missing
value. An empty bucket therefore gets each of open/high/low/close from
the previous bar's same column (its close does equal the previous close,
but its open/high/low equal the previous open/high/low, not the previous
close); its count is 0 and its volume cell is 0 inside the volume span
and forward-filled from the previous bar outside it. The first bar is
taken as computed (never gap-filled): it always contains a tick, its
open/high/low are absent when no tick is flagged for them, and its close
is always present through the unconditional fallback of get_close. -/
theorem claim_C2_amended (rows : List Row) (i : ℕ) (b : ℤ) (bar : Bar)
    (hc : (calculateOHLCVC rows)[i]? = some (b, bar)) :
    (ticksIn rows b = [] →
      bar.cnt = 0 ∧
      (volSpanMem rows b = true → bar.vol = some 0) ∧
      (∀ (j : ℕ) (b2 : ℤ) (bar2 : Bar), i = j + 1 →
        (calculateOHLCVC rows)[j]? = some (b2, bar2) →
        bar.op = bar2.op ∧ bar.hi = bar2.hi ∧ bar.lo = bar2.lo ∧ bar.cl = bar2.cl ∧
          (volSpanMem rows b = false → bar.vol = bar2.vol))) ∧
    (i = 0 →
      ticksIn rows b ≠ [] ∧
      bar.op = rawOpen rows b ∧ bar.hi = rawHigh rows b ∧ bar.lo = rawLow rows b ∧
      bar.cl = rawClose rows b ∧ bar.vol = rawVol rows b ∧ bar.cl ≠ none) := by
  obtain ⟨hlen, hb, hop, hhi, hlo, hcl, hvol, hcnt⟩ := calc_inv rows i b bar hc
  constructor
  · intro hempty
    have hro : rawOpen rows b = none := by rw [rawOpen, hempty]; rfl
    have hrh : rawHigh rows b = none := by rw [rawHigh, hempty]; rfl
    have hrl : rawLow rows b = none := by rw [rawLow, hempty]; rfl
    have hrc : rawClose rows b = none := by rw [rawClose, hempty]; rfl
    have hrv : rawVol rows b = if volSpanMem rows b then some 0 else none := by
      rw [rawVol, hempty]
      rfl
    refine ⟨?_, ?_, ?_⟩
    · rw [hcnt, cnt_getD rows i hlen, ← hb, rawCnt, hempty]
      rfl
    · intro hspan
      rw [hvol]
      apply col_getD_some rows (rawVol rows) i hlen
      rw [← hb, hrv, hspan]
      rfl
    · intro j b2 bar2 hij hc2
      obtain ⟨hlen2, hb2, hop2, hhi2, hlo2, hcl2, hvol2, _⟩ := calc_inv rows j b2 bar2 hc2
      subst hij
      refine ⟨?_, ?_, ?_, ?_, ?_⟩
      · rw [hop, hop2]
        exact col_getD_succ_none rows _ j hlen (by rw [← hb]; exact hro)
      · rw [hhi, hhi2]
        exact col_getD_succ_none rows _ j hlen (by rw [← hb]; exact hrh)
      · rw [hlo, hlo2]
        exact col_getD_succ_none rows _ j hlen (by rw [← hb]; exact hrl)
      · rw [hcl, hcl2]
        exact col_getD_succ_none rows _ j hlen (by rw [← hb]; exact hrc)
      · intro hnospan
        rw [hvol, hvol2]
        apply col_getD_succ_none rows _ j hlen
        rw [← hb, hrv, hnospan]
        rfl
  · intro h0
    subst h0
    have hspan_ne : spanList rows ≠ [] := by
      intro hnil
      rw [hnil] at hlen
      cases hlen
    have hmem : b ∈ allBuckets rows := by
      cases hmin : (allBuckets rows).min? with
      | none =>
        have hnil := List.min?_eq_none_iff.mp hmin
        have : spanList rows = [] := by
          simp only [spanList, hmin]
        exact absurd this hspan_ne
      | some lo =>
        cases hmax : (allBuckets rows).max? with
        | none =>
          have hnil := List.max?_eq_none_iff.mp hmax
          rw [hnil] at hmin
          simp at hmin
        | some hi =>
          have hspan : spanList rows = intRange lo hi := by
            simp only [spanList, hmin, hmax]
          have h0len : 0 < (hi + 1 - lo).toNat := by
            have := hlen
            rw [hspan] at this
            simpa [intRange] using this
          have hblo : b = lo := by
            rw [hb, hspan, intRange_getD lo hi 0 h0len]
            simp
          rw [hblo]
          exact List.min?_mem (fun a b => min_choice a b) hmin
    rcases List.mem_map.mp hmem with ⟨r, hr, hbr⟩
    have hmemT : r ∈ ticksIn rows b := by
      rw [ticksIn, List.mem_filter]
      exact ⟨hr, beq_iff_eq.mpr hbr⟩
    have hne : ticksIn rows b ≠ [] := List.ne_nil_of_mem hmemT
    have hcell0 : ∀ {γ : Type} (f : ℤ → Option γ),
        (ffill1 none ((spanList rows).map f)).getD 0 none = f b := by
      intro γ f
      cases hfv : f b with
      | none =>
        rw [col_getD_at rows f 0 hlen]
        rw [lastVal_take_succ_of_none none _ 0
          (by rw [mapped_col_getElem? rows f 0 hlen, ← hb, hfv])]
        rfl
      | some v =>
        exact col_getD_some rows f 0 hlen v (by rw [← hb]; exact hfv)
    refine ⟨hne, ?_, ?_, ?_, ?_, ?_, ?_⟩
    · rw [hop, hcell0 (rawOpen rows)]
    · rw [hhi, hcell0 (rawHigh rows)]
    · rw [hlo, hcell0 (rawLow rows)]
    · rw [hcl, hcell0 (rawClose rows)]
    · rw [hvol, hcell0 (rawVol rows)]
    · rw [hcl, hcell0 (rawClose rows), rawClose]
      exact getClose_ne_none _ hne

/-! ## Claim C6: the volume column -/

/-- Claim C6 as amended: inside the volume resample span a bar's volume is
the astype(int) of the sum of the sizes of its include_in_volume rows (0
when the bucket holds none), but buckets outside the span have their
missing volume cell forward-filled from the previous bar, so a bar
without volume-flagged ticks can carry a nonzero volume. Volume values
are nonnegative whenever every tick size is nonnegative. -/
theorem claim_C6_amended (rows : List Row) (i : ℕ) (b : ℤ) (bar : Bar)
    (hc : (calculateOHLCVC rows)[i]? = some (b, bar)) :
    (volSpanMem rows b = true →
      bar.vol = some (truncQ ((((ticksIn rows b).filter (fun r => r.2.inVolume)).map
        (fun r => r.1.size)).sum)) ∧
      ((ticksIn rows b).filter (fun r => r.2.inVolume) = [] → bar.vol = some 0)) ∧
    ((∀ r ∈ rows, 0 ≤ r.1.size) → ∀ z : ℤ, bar.vol = some z → 0 ≤ z) := by
  obtain ⟨hlen, hb, _, _, _, _, hvol, _⟩ := calc_inv rows i b bar hc
  constructor
  · intro hspan
    have hraw : rawVol rows b = some (truncQ ((((ticksIn rows b).filter
        (fun r => r.2.inVolume)).map (fun r => r.1.size)).sum)) := by
      rw [rawVol, hspan]
      rfl
    have hmain : bar.vol = some (truncQ ((((ticksIn rows b).filter
        (fun r => r.2.inVolume)).map (fun r => r.1.size)).sum)) := by
      rw [hvol]
      exact col_getD_some rows (rawVol rows) i hlen _ (by rw [← hb]; exact hraw)
    refine ⟨hmain, ?_⟩
    intro hflt
    rw [hmain, hflt]
    rfl
  · intro hnn z hz
    rw [hvol] at hz
    rcases col_getD_mem rows (rawVol rows) i hlen z hz with ⟨b2, _, hf⟩
    rw [rawVol] at hf
    cases hs2 : volSpanMem rows b2 with
    | false =>
      rw [hs2] at hf
      cases hf
    | true =>
      rw [hs2] at hf
      simp only [if_true, Option.some.injEq] at hf
      rw [← hf]
      have hsum : 0 ≤ (((ticksIn rows b2).filter (fun r => r.2.inVolume)).map
          (fun r => r.1.size)).sum := by
        apply List.sum_nonneg
        intro x hx
        rcases List.mem_map.mp hx with ⟨r, hrf, hrx⟩
        have hrm : r ∈ rows := by
          have h1 := (List.mem_filter.mp hrf).1
          exact (List.mem_filter.mp h1).1
        rw [← hrx]
        exact hnn r hrm
      exact Int.tdiv_nonneg (Rat.num_nonneg.mpr hsum) (Int.natCast_nonneg _)

/-- Counterexample to claim C2: in the gap example the empty minute-1
bucket gets open 100 (the previous bar's open) while the previous bar's
close is 105, refuting that the previous close is carried into all four
of open/high/low/close; and in the single-ineligible-tick example the
first bar carries a present close (the unconditional get_close fallback)
although the bucket has no eligible tick, refuting that such a first bar
is emitted with an absent close. -/
theorem claim_C2_counterexample :
    ticksIn exGapClassified 1 = [] ∧
    (calculateOHLCVC exGapClassified)[0]?.map (fun p => p.2.cl) = some (some 105) ∧
    (calculateOHLCVC exGapClassified)[1]?.map (fun p => p.2.op) = some (some 100) ∧
    some (100 : ℚ) ≠ some (105 : ℚ) ∧
    (∀ r ∈ exFirstClassified, r.2.inOpen = false ∧ r.2.inHigh = false ∧
      r.2.inLow = false ∧ r.2.inClose = false) ∧
    (calculateOHLCVC exFirstClassified)[0]?.map (fun p => p.2.cl) = some (some 42) :=
  ⟨by decide, by decide, by decide, by decide, by decide, by decide⟩

/-- Witness for the amended C2 at the empty minute-1 bucket of the gap
example: count 0 and every price column forward-filled from the same
column of bar 0. -/
theorem claim_C2_amended_witness :
    (Bar.mk (some 100) (some 105) (some 100) (some 105) none 0).cnt = 0 ∧
    (Bar.mk (some 100) (some 105) (some 100) (some 105) none 0).op =
      (Bar.mk (some 100) (some 105) (some 100) (some 105) none 2).op ∧
    (Bar.mk (some 100) (some 105) (some 100) (some 105) none 0).cl =
      (Bar.mk (some 100) (some 105) (some 100) (some 105) none 2).cl := by
  have h := claim_C2_amended exGapClassified 1 1
    (Bar.mk (some 100) (some 105) (some 100) (some 105) none 0) (by decide)
  have h1 := h.1 (by decide)
  have h2 := h1.2.2 0 0 (Bar.mk (some 100) (some 105) (some 100) (some 105) none 2)
    rfl (by decide)
  exact ⟨h1.1, h2.1, h2.2.2.2.1⟩

/-- Counterexample to claim C6: minute 1 of the volume example holds no
include_in_volume tick, yet its bar volume is the forward-filled 5 of
minute 0 (minute 1 lies right of the volume resample span, so alignment
leaves its cell missing and the frame-wide ffill fills it), not the sum 0
the claim requires. -/
theorem claim_C6_counterexample :
    (ticksIn exVolClassified 1).filter (fun r => r.2.inVolume) = [] ∧
    (calculateOHLCVC exVolClassified)[1]?.map (fun p => p.2.vol) = some (some 5) ∧
    (5 : ℤ) ≠ 0 := by
  refine ⟨by decide, ?_, by decide⟩
  have h1 : (calculateOHLCVC exVolClassified)[1]?.map (fun p => p.2.vol)
      = some (some (truncQ ([(5 : ℚ)]).sum)) := by rfl
  have h2 : truncQ ([(5 : ℚ)]).sum = 5 := by
    have hs : ([(5 : ℚ)]).sum = 5 := by simp
    rw [hs]
    decide
  rw [h1, h2]

/-- Witness for the amended C6 at the in-span empty-volume bucket of the
three-minute volume example. -/
theorem claim_C6_amended_witness :
    (Bar.mk (some 101) (some 101) (some 101) (some 101) (some 0) 1).vol = some 0 ∧
    (0 : ℤ) ≤ 0 := by
  have h := claim_C6_amended exVolWClassified 1 1
    (Bar.mk (some 101) (some 101) (some 101) (some 101) (some 0) 1) (by decide)
  exact ⟨(h.1 (by decide)).2 (by decide), h.2 (by decide) 0 rfl⟩

/-! ## Claim C8: the essential-column schema check -/

theorem exbind_ok (x : α) (k : α → Except ε β) :
    (Except.ok x >>= k) = k x := rfl

theorem exbind_err {α β : Type} {ε : Type} (e : ε) (k : α → Except ε β) :
    ((Except.error e : Except ε α) >>= k) = Except.error e := rfl

theorem getCol_no_schema (tbl : Table) (name : String) (e : BuildErr)
    (h : getCol tbl name = .error e) : ∀ m, e ≠ .schemaError m := by
  rw [getCol] at h
  cases hf : tbl.find? (fun c => c.1 == name) with
  | some c => rw [hf] at h; cases h
  | none =>
    rw [hf] at h
    injection h with h2
    intro m
    rw [← h2]
    intro hcontra
    cases hcontra

theorem castInt64_no_schema (oc : Option ℚ) (e : BuildErr)
    (h : castInt64Nullable oc = .error e) : ∀ m, e ≠ .schemaError m := by
  rcases oc with _ | q
  · cases h
  · rw [castInt64Nullable] at h
    by_cases hd : q.den == 1
    · rw [if_pos hd] at h; cases h
    · rw [if_neg hd] at h
      injection h with h2
      intro m
      rw [← h2]
      intro hcontra
      cases hcontra

theorem exceptMap_no_schema (f : α → Except BuildErr β)
    (hf : ∀ x e, f x = .error e → ∀ m, e ≠ .schemaError m) :
    ∀ (l : List α) (e : BuildErr), exceptMap f l = .error e → ∀ m, e ≠ .schemaError m := by
  intro l
  induction l with
  | nil => intro e h; cases h
  | cons x xs ih =>
    intro e h
    rw [exceptMap] at h
    cases hx : f x with
    | error e1 =>
      rw [hx] at h
      injection h with h2
      exact h2 ▸ hf x e1 hx
    | ok y =>
      rw [hx] at h
      simp only [exbind_ok] at h
      cases hxs : exceptMap f xs with
      | error e2 =>
        rw [hxs] at h
        injection h with h2
        exact h2 ▸ ih e2 hxs
      | ok ys =>
        rw [hxs] at h
        cases h

theorem frameCol_no_schema (f : RawFrame) (name : String) (e : BuildErr)
    (h : frameCol f name = .error e) : ∀ m, e ≠ .schemaError m := by
  rw [frameCol] at h
  cases hf : f.cols.indexOf? name with
  | some j => rw [hf] at h; cases h
  | none =>
    rw [hf] at h
    injection h with h2
    intro m
    rw [← h2]
    intro hcontra
    cases hcontra

theorem processTrades_no_schema (f : RawFrame) (e : BuildErr)
    (h : processTradesDataframe f = .error e) : ∀ m, e ≠ .schemaError m := by
  rw [processTradesDataframe] at h
  cases h1 : frameCol f "date" with
  | error e1 => rw [h1] at h; injection h with h2; exact h2 ▸ frameCol_no_schema f _ e1 h1
  | ok dateC =>
  rw [h1] at h
  simp only [exbind_ok] at h
  cases h2 : frameCol f "ms_of_day" with
  | error e2 => rw [h2] at h; injection h with hh; exact hh ▸ frameCol_no_schema f _ e2 h2
  | ok msC =>
  rw [h2] at h
  simp only [exbind_ok] at h
  cases h3 : frameCol f "price" with
  | error e3 => rw [h3] at h; injection h with hh; exact hh ▸ frameCol_no_schema f _ e3 h3
  | ok priceC =>
  rw [h3] at h
  simp only [exbind_ok] at h
  cases h4 : frameCol f "size" with
  | error e4 => rw [h4] at h; injection h with hh; exact hh ▸ frameCol_no_schema f _ e4 h4
  | ok sizeC =>
  rw [h4] at h
  simp only [exbind_ok] at h
  cases h5 : frameCol f "condition" with
  | error e5 => rw [h5] at h; injection h with hh; exact hh ▸ frameCol_no_schema f _ e5 h5
  | ok condC =>
  rw [h5] at h
  simp only [exbind_ok] at h
  cases h6 : exceptMap castInt64Nullable (condC.map toNumericCell) with
  | error e6 =>
    rw [h6] at h
    injection h with hh
    exact hh ▸ exceptMap_no_schema castInt64Nullable castInt64_no_schema _ e6 h6
  | ok condInt =>
    rw [h6] at h
    cases h

theorem merge_no_schema (ticks : List PTick) (tbl : Table) (e : BuildErr)
    (h : mergeTradeConditions ticks tbl = .error e) : ∀ m, e ≠ .schemaError m := by
  rw [mergeTradeConditions] at h
  cases h1 : getCol tbl "code" with
  | error e1 => rw [h1] at h; injection h with hh; exact hh ▸ getCol_no_schema tbl _ e1 h1
  | ok c1 =>
  rw [h1] at h
  simp only [exbind_ok] at h
  cases h2 : getCol tbl "last" with
  | error e2 => rw [h2] at h; injection h with hh; exact hh ▸ getCol_no_schema tbl _ e2 h2
  | ok c2 =>
  rw [h2] at h
  simp only [exbind_ok] at h
  cases h3 : getCol tbl "high" with
  | error e3 => rw [h3] at h; injection h with hh; exact hh ▸ getCol_no_schema tbl _ e3 h3
  | ok c3 =>
  rw [h3] at h
  simp only [exbind_ok] at h
  cases h4 : getCol tbl "low" with
  | error e4 => rw [h4] at h; injection h with hh; exact hh ▸ getCol_no_schema tbl _ e4 h4
  | ok c4 =>
  rw [h4] at h
  simp only [exbind_ok] at h
  cases h5 : getCol tbl "openreport" with
  | error e5 => rw [h5] at h; injection h with hh; exact hh ▸ getCol_no_schema tbl _ e5 h5
  | ok c5 =>
  rw [h5] at h
  simp only [exbind_ok] at h
  cases h6 : getCol tbl "volume" with
  | error e6 => rw [h6] at h; injection h with hh; exact hh ▸ getCol_no_schema tbl _ e6 h6
  | ok c6 =>
  rw [h6] at h
  simp only [exbind_ok] at h
  cases h7 : getCol tbl "name" with
  | error e7 => rw [h7] at h; injection h with hh; exact hh ▸ getCol_no_schema tbl _ e7 h7
  | ok c7 =>
    rw [h7] at h
    cases h

/-- Claim C8: with an essential raw field structurally absent from the
record shape, the build fails with the missing-columns SchemaError before
any row-level parsing (the result is this error for every row content,
and the Except chain runs no later stage); with all essential fields
present this error is never raised, whatever else happens downstream. -/
theorem claim_C8_schema_error :
    (∀ (trades : List (List Cell)) (fmt : List String) (tcond : Table) (f : RawFrame),
      mkDataFrame trades fmt = .ok f → missingEssential fmt ≠ [] →
      createDataframe trades fmt tcond = .error (.schemaError (missingEssential fmt))) ∧
    (∀ (trades : List (List Cell)) (fmt : List String) (tcond : Table),
      missingEssential fmt = [] →
      ∀ m, createDataframe trades fmt tcond ≠ .error (.schemaError m)) := by
  constructor
  · intro trades fmt tcond f hmk hmiss
    have hcols : f.cols = fmt := by
      rw [mkDataFrame] at hmk
      by_cases hall : trades.all (fun r => r.length == fmt.length)
      · rw [if_pos hall] at hmk
        injection hmk with hh
        rw [← hh]
      · rw [if_neg hall] at hmk
        cases hmk
    have hval : validateColumns f.cols = .error (.schemaError (missingEssential fmt)) := by
      rw [validateColumns, hcols]
      have : (missingEssential fmt).isEmpty = false := by
        cases hm : missingEssential fmt with
        | nil => exact absurd hm hmiss
        | cons a l => rfl
      rw [this]
      rfl
    rw [createDataframe, hmk]
    simp only [exbind_ok]
    rw [hval]
    rfl
  · intro trades fmt tcond hmiss m
    rw [createDataframe]
    cases hmk : mkDataFrame trades fmt with
    | error e =>
      have he : e = .valueError "columns passed do not match data" := by
        rw [mkDataFrame] at hmk
        by_cases hall : trades.all (fun r => r.length == fmt.length)
        · rw [if_pos hall] at hmk; cases hmk
        · rw [if_neg hall] at hmk; injection hmk with hh; exact hh.symm
      simp only [exbind_err]
      rw [he]
      intro hcontra
      injection hcontra with hh
      cases hh
    | ok f =>
      have hcols : f.cols = fmt := by
        rw [mkDataFrame] at hmk
        by_cases hall : trades.all (fun r => r.length == fmt.length)
        · rw [if_pos hall] at hmk
          injection hmk with hh
          rw [← hh]
        · rw [if_neg hall] at hmk
          cases hmk
      have hval : validateColumns f.cols = .ok () := by
        rw [validateColumns, hcols, hmiss]
        rfl
      simp only [exbind_ok]
      rw [hval]
      simp only [exbind_ok]
      cases hpt : processTradesDataframe f with
      | error e =>
        simp only [exbind_err]
        intro hcontra
        injection hcontra with hh
        exact processTrades_no_schema f e hpt m hh
      | ok ticks =>
        simp only [exbind_ok]
        cases hmg : mergeTradeConditions ticks tcond with
        | error e =>
          intro hcontra
          injection hcontra with hh
          exact merge_no_schema ticks tcond e hmg m hh
        | ok df =>
          intro hcontra
          cases hcontra

/-- Witness for C8: a frame missing the price column fails with exactly
the SchemaError naming it, and the same rows under the complete format do
not raise that error. -/
theorem claim_C8_schema_error_witness :
    createDataframe exBadTrades exBadFmt [] = .error (.schemaError ["price"]) ∧
    createDataframe [] essentialColumns [] ≠ .error (.schemaError ["price"]) :=
  ⟨claim_C8_schema_error.1 exBadTrades exBadFmt [] ⟨exBadFmt, exBadTrades⟩
      (by decide) (by decide),
    claim_C8_schema_error.2 [] essentialColumns [] (by decide) ["price"]⟩

/-! ## Claim C9: the capitalized-versus-lowercase column mismatch -/

/-- Claim C9: load_trade_conditions returns tables whose column names are
exactly the lowercase expected list, while the builder constructor looks
up the capitalized Cancel column; on any table with all-lowercase column
names (in particular every loader output) construction raises KeyError
during the condition-set precomputation, before any bar is produced. -/
theorem claim_C9_case_mismatch :
    (∀ (tbl out : Table), loadTradeConditions tbl = .ok out →
      out.map Prod.fst = expectedColumns) ∧
    (∀ (tbl : Table) (trades : List (List Cell)) (fmt : List String),
      (∀ c ∈ tbl.map Prod.fst, strLower c = c) →
      builderInit trades fmt tbl = .error (.keyError "Cancel")) := by
  constructor
  · intro tbl out h
    rw [loadTradeConditions] at h
    by_cases hm : (expectedColumns.filter
        (fun c => !((lowerCols tbl).map Prod.fst).contains c)).isEmpty
    · rw [if_pos hm] at h
      injection h with hh
      rw [← hh, List.map_map]
      refine (List.map_congr_left ?_).trans (List.map_id _)
      intro a _
      rfl
    · rw [if_neg hm] at h
      cases h
  · intro tbl trades fmt hlow
    have hfind : tbl.find? (fun c => c.1 == "Cancel") = none := by
      rw [List.find?_eq_none]
      intro c hc
      intro hbeq
      have hceq : c.1 = "Cancel" := by
        exact beq_iff_eq.mp hbeq
      have hl := hlow c.1 (List.mem_map_of_mem Prod.fst hc)
      rw [hceq] at hl
      have hlc : strLower "Cancel" = "cancel" := by decide
      rw [hlc] at hl
      exact absurd hl (by decide)
    have hget : getCol tbl "Cancel" = .error (.keyError "Cancel") := by
      rw [getCol, hfind]
    rw [builderInit, determineConditions, hget]
    rfl

/-- Witness for C9 on the table shaped like a loader output. -/
theorem claim_C9_case_mismatch_witness :
    builderInit [] [] exLowerTbl = .error (.keyError "Cancel") :=
  claim_C9_case_mismatch.2 exLowerTbl [] [] (by decide)

/-! ## Claim C10: per-cell coercion of the loader -/

/-- Claim C10: load_trade_conditions fails only on missing columns, never
on cell values; every boolean-column cell whose lowercased string form is
neither true, false nor the star maps to False, the star maps to the
string conditional on the last column and to True on the other boolean
columns, and true/false map to True/False. -/
theorem claim_C10_loader_cells :
    (∀ tbl : Table,
      (∃ out, loadTradeConditions tbl = .ok out) ↔
        expectedColumns.filter
          (fun c => !((lowerCols tbl).map Prod.fst).contains c) = []) ∧
    (∀ (col : String) (c : Cell), cellStrLower c ≠ "true" → cellStrLower c ≠ "false" →
      cellStrLower c ≠ "*" → coerceCell col c = .bool false) ∧
    (∀ c : Cell, cellStrLower c = "*" →
      coerceCell "last" c = .str "conditional" ∧
      ∀ col, col ≠ "last" → coerceCell col c = .bool true) ∧
    (∀ (col : String) (c : Cell), cellStrLower c = "true" → coerceCell col c = .bool true) ∧
    (∀ (col : String) (c : Cell), cellStrLower c = "false" → coerceCell col c = .bool false) := by
  refine ⟨?_, ?_, ?_, ?_, ?_⟩
  · intro tbl
    rw [loadTradeConditions]
    by_cases hm : (expectedColumns.filter
        (fun c => !((lowerCols tbl).map Prod.fst).contains c)).isEmpty
    · rw [if_pos hm]
      constructor
      · intro _
        exact List.isEmpty_iff.mp hm
      · intro _
        exact ⟨_, rfl⟩
    · rw [if_neg hm]
      constructor
      · intro hex
        rcases hex with ⟨out, hout⟩
        cases hout
      · intro hc
        exact absurd (by rw [hc]; rfl) hm
  · intro col c h1 h2 h3
    unfold coerceCell
    split <;> simp_all
  · intro c h
    constructor
    · unfold coerceCell
      rw [h]
      rfl
    · intro col hcol
      unfold coerceCell
      rw [h]
      have hne : (col == "last") = false := by
        rcases hb : col == "last" with _ | _
        · rfl
        · exact absurd (beq_iff_eq.mp hb) hcol
      simp [hne]
  · intro col c h
    unfold coerceCell
    rw [h]
    rfl
  · intro col c h
    unfold coerceCell
    rw [h]
    rfl

/-- Witness for C10 at concrete cells of each coercion class. -/
theorem claim_C10_loader_cells_witness :
    coerceCell "volume" (Cell.str "yes") = .bool false ∧
    coerceCell "last" (Cell.str "*") = .str "conditional" ∧
    coerceCell "high" (Cell.str "*") = .bool true ∧
    coerceCell "cancel" (Cell.bool true) = .bool true ∧
    coerceCell "cancel" (Cell.str "FALSE") = .bool false :=
  ⟨claim_C10_loader_cells.2.1 "volume" (.str "yes") (by decide) (by decide) (by decide),
   (claim_C10_loader_cells.2.2.1 (.str "*") (by decide)).1,
   (claim_C10_loader_cells.2.2.1 (.str "*") (by decide)).2 "high" (by decide),
   claim_C10_loader_cells.2.2.2.1 "cancel" (.bool true) (by decide),
   claim_C10_loader_cells.2.2.2.2 "cancel" (.str "FALSE") (by decide)⟩

/-! ## Claim C3: the timestamp sort of the normalizer -/

theorem lexR_trans (v : List ℤ) (a b c : ℕ) (h1 : lexR v a b) (h2 : lexR v b c) :
    lexR v a c := by
  rcases h1 with h1 | ⟨h1e, h1l⟩
  · rcases h2 with h2 | ⟨h2e, _⟩
    · exact Or.inl (lt_trans h1 h2)
    · exact Or.inl (h2e ▸ h1)
  · rcases h2 with h2 | ⟨h2e, h2l⟩
    · exact Or.inl (h1e ▸ h2)
    · exact Or.inr ⟨h1e.trans h2e, lt_trans h1l h2l⟩

theorem npyInsert_perm (v : List ℤ) (x : ℕ) :
    ∀ acc : List ℕ, (npyInsert v x acc).Perm (x :: acc) := by
  intro acc
  induction acc with
  | nil => exact List.Perm.refl _
  | cons y ys ih =>
    rw [npyInsert]
    by_cases hlt : lget v x < lget v y
    · rw [if_pos hlt]
    · rw [if_neg hlt]
      exact (ih.cons y).trans (List.Perm.swap x y ys)

theorem npyInsert_pairwise (v : List ℤ) (x : ℕ) :
    ∀ acc : List ℕ, acc.Pairwise (lexR v) → (∀ y ∈ acc, y < x) →
      (npyInsert v x acc).Pairwise (lexR v) := by
  intro acc
  induction acc with
  | nil =>
    intro _ _
    exact List.pairwise_singleton _ _
  | cons y ys ih =>
    intro hp hlt
    rcases List.pairwise_cons.mp hp with ⟨hy, hys⟩
    rw [npyInsert]
    by_cases hxy : lget v x < lget v y
    · rw [if_pos hxy]
      apply List.pairwise_cons.mpr
      refine ⟨?_, hp⟩
      intro z hz
      rcases List.mem_cons.mp hz with rfl | hz2
      · exact Or.inl hxy
      · exact lexR_trans v x y z (Or.inl hxy) (hy z hz2)
    · rw [if_neg hxy]
      apply List.pairwise_cons.mpr
      constructor
      · intro z hz
        have hz2 : z ∈ x :: ys := (npyInsert_perm v x ys).mem_iff.mp hz
        rcases List.mem_cons.mp hz2 with rfl | hz3
        · rcases lt_or_eq_of_le (not_lt.mp hxy) with hlt2 | heq
          · exact Or.inl hlt2
          · exact Or.inr ⟨heq, hlt y (List.mem_cons_self y ys)⟩
        · exact hy z hz3
      · exact ih hys (fun z hz => hlt z (List.mem_cons_of_mem y hz))

theorem insertionFold_props (v : List ℤ) :
    ∀ (l acc : List ℕ), acc.Pairwise (lexR v) → l.Pairwise (fun a b => a < b) →
      (∀ y ∈ acc, ∀ x ∈ l, y < x) →
      (l.foldl (fun a x => npyInsert v x a) acc).Pairwise (lexR v) ∧
      (l.foldl (fun a x => npyInsert v x a) acc).Perm (acc ++ l) := by
  intro l
  induction l with
  | nil =>
    intro acc hp _ _
    exact ⟨hp, by simp⟩
  | cons x xs ih =>
    intro acc hp hl hcross
    rcases List.pairwise_cons.mp hl with ⟨hx, hxs⟩
    have hins_p : (npyInsert v x acc).Pairwise (lexR v) :=
      npyInsert_pairwise v x acc hp (fun y hy => hcross y hy x (List.mem_cons_self x xs))
    have hins_perm := npyInsert_perm v x acc
    have hcross2 : ∀ y ∈ npyInsert v x acc, ∀ z ∈ xs, y < z := by
      intro y hy z hz
      rcases List.mem_cons.mp (hins_perm.mem_iff.mp hy) with rfl | hy2
      · exact hx z hz
      · exact hcross y hy2 z (List.mem_cons_of_mem x hz)
    rcases ih (npyInsert v x acc) hins_p hxs hcross2 with ⟨hp2, hperm2⟩
    refine ⟨hp2, ?_⟩
    have hstep : (x :: xs).foldl (fun a x => npyInsert v x a) acc
        = xs.foldl (fun a x => npyInsert v x a) (npyInsert v x acc) := rfl
    rw [hstep]
    exact hperm2.trans ((hins_perm.append_right xs).trans List.perm_middle.symm)

theorem insertionPhase_range (v : List ℤ) (n : ℕ) :
    (insertionPhase v (List.range n)).Pairwise (lexR v) ∧
    (insertionPhase v (List.range n)).Perm (List.range n) := by
  have h := insertionFold_props v (List.range n) [] List.Pairwise.nil
    (List.pairwise_lt_range n) (by intro y hy; cases hy)
  rw [insertionPhase]
  exact ⟨h.1, by simpa using h.2⟩

theorem npArgsortQuick_small (v : List ℤ) (h1 : v ≠ []) (h16 : v.length ≤ 16) :
    npArgsortQuick v = insertionPhase v (List.range v.length) := by
  rcases hv : v.length with _ | m
  · rw [List.length_eq_zero] at hv
    exact absurd hv h1
  · have hm : m ≤ 15 := by
      rw [hv] at h16
      exact Nat.le_of_succ_le_succ h16
    unfold npArgsortQuick
    rw [hv]
    show aquicksortLoop v (2 * (m + 1) + 8) (List.range (m + 1)) [] 0 m
        (2 * (msbOf (m + 1) : ℤ)) = insertionPhase v (List.range (m + 1))
    have hfuel : 2 * (m + 1) + 8 = (2 * (m + 1) + 7) + 1 := rfl
    rw [hfuel, aquicksortLoop]
    have hcond : ¬ (SMALL_QS + 0 < m) := by
      rw [SMALL_QS]
      omega
    rw [if_neg hcond]
    have hslice : sliceOf (List.range (m + 1)) 0 m = List.range (m + 1) := by
      rw [sliceOf]
      simp
    rw [hslice, setSlice]
    have hlen : (insertionPhase v (List.range (m + 1))).length = m + 1 := by
      have := (insertionPhase_range v (m + 1)).2.length_eq
      simpa using this
    simp [hlen]

theorem pairwise_indexOf_lt (R : ℕ → ℕ → Prop) :
    ∀ (l : List ℕ), l.Pairwise R → ∀ i j, i ∈ l → j ∈ l → R i j → ¬ R j i → i ≠ j →
      l.indexOf i < l.indexOf j := by
  intro l
  induction l with
  | nil => intro _ i j hi; cases hi
  | cons a l ih =>
    intro hp i j hi hj hr hnr hne
    rcases List.pairwise_cons.mp hp with ⟨ha, hl⟩
    by_cases hia : i = a
    · subst hia
      have hjl : j ∈ l := by
        rcases List.mem_cons.mp hj with rfl | h2
        · exact absurd rfl hne
        · exact h2
      rw [List.indexOf_cons_self, List.indexOf_cons_ne l hne]
      exact Nat.succ_pos _
    · by_cases hja : j = a
      · subst hja
        have hil : i ∈ l := by
          rcases List.mem_cons.mp hi with rfl | h2
          · exact absurd rfl hia
          · exact h2
        exact absurd (ha i hil) hnr
      · have hil : i ∈ l := by
          rcases List.mem_cons.mp hi with rfl | h2
          · exact absurd rfl hia
          · exact h2
        have hjl : j ∈ l := by
          rcases List.mem_cons.mp hj with rfl | h2
          · exact absurd rfl hja
          · exact h2
        rw [List.indexOf_cons_ne l (fun he => hia he.symm),
          List.indexOf_cons_ne l (fun he => hja he.symm)]
        exact Nat.succ_lt_succ (ih hl i j hil hjl hr hnr hne)

/-- Counterexample to claim C3: all seventeen parsed ticks of the frame
share one timestamp, so preserving arrival order on ties would return
them in arrival order (prices 0..16); the pandas default quicksort
(numpy introsort, whose partition exchange fires at seventeen elements)
returns them as prices 0, 14, 13, ..., so for the equal-timestamp pair
with prices 1 and 2 the relative order is inverted. -/
theorem claim_C3_counterexample :
    (∀ t1 ∈ exArrival17, ∀ t2 ∈ exArrival17, t1.ts = t2.ts) ∧
    processTradesDataframe exFrame17 =
      .ok (([0, 14, 13, 12, 11, 10, 9, 15, 8, 6, 5, 4, 3, 2, 1, 7, 16] : List ℕ).map
        (fun i => ⟨ts17, (i : ℚ), 1, 0⟩)) ∧
    out17.indexOf ⟨ts17, (2 : ℚ), 1, 0⟩ < out17.indexOf ⟨ts17, (1 : ℚ), 1, 0⟩ :=
  ⟨by decide, by decide, by decide⟩

/-- Claim C3 as amended: the surviving ticks are ranked ascending by
timestamp, and arrival order between equal timestamps is preserved
exactly while the numpy quicksort stays in its insertion-sort regime,
that is for at most sixteen surviving ticks; with more ticks the
partition exchange can reorder ties (see the seventeen-tick
counterexample). -/
theorem claim_C3_amended (parsed : List PTick) (h16 : parsed.length ≤ 16) :
    (sortTicks parsed).Pairwise (fun a b => a.ts ≤ b.ts) ∧
    (∀ i j : ℕ, i < j → j < parsed.length →
      lget (parsed.map (fun t => t.ts)) i = lget (parsed.map (fun t => t.ts)) j →
      (npArgsortQuick (parsed.map (fun t => t.ts))).indexOf i <
        (npArgsortQuick (parsed.map (fun t => t.ts))).indexOf j) := by
  by_cases hnil : parsed = []
  · subst hnil
    constructor
    · simp [sortTicks, npArgsortQuick]
    · intro i j _ hj
      cases hj
  · have hv : parsed.map (fun t => t.ts) ≠ [] := by
      simpa using hnil
    have hv16 : (parsed.map (fun t => t.ts)).length ≤ 16 := by
      simpa using h16
    have hq := npArgsortQuick_small (parsed.map (fun t => t.ts)) hv hv16
    obtain ⟨hpw, hperm⟩ := insertionPhase_range (parsed.map (fun t => t.ts))
      (parsed.map (fun t => t.ts)).length
    have hts_of_mem : ∀ (a : ℕ) (x : PTick), parsed[a]? = some x →
        lget (parsed.map (fun t => t.ts)) a = x.ts := by
      intro a x hx
      rw [lget, List.getD_eq_getElem?_getD, List.getElem?_map, hx]
      rfl
    constructor
    · rw [sortTicks, hq]
      apply List.Pairwise.filterMap (fun j => parsed[j]?) ?_ hpw
      intro a b hab x hx y hy
      have hxa := hts_of_mem a x (Option.mem_def.mp hx)
      have hyb := hts_of_mem b y (Option.mem_def.mp hy)
      rcases hab with hlt | ⟨heq, _⟩
      · rw [← hxa, ← hyb]
        exact le_of_lt hlt
      · rw [← hxa, ← hyb]
        exact le_of_eq heq
    · intro i j hij hj hts
      rw [hq]
      have hjv : j < (parsed.map (fun t => t.ts)).length := by
        simpa using hj
      have hi_mem : i ∈ insertionPhase (parsed.map (fun t => t.ts))
          (List.range (parsed.map (fun t => t.ts)).length) :=
        hperm.mem_iff.mpr (List.mem_range.mpr (Nat.lt_trans hij hjv))
      have hj_mem : j ∈ insertionPhase (parsed.map (fun t => t.ts))
          (List.range (parsed.map (fun t => t.ts)).length) :=
        hperm.mem_iff.mpr (List.mem_range.mpr hjv)
      apply pairwise_indexOf_lt (lexR (parsed.map (fun t => t.ts))) _ hpw i j
        hi_mem hj_mem (Or.inr ⟨hts, hij⟩) ?_ (Nat.ne_of_lt hij)
      intro hcon
      rcases hcon with hlt | ⟨_, hji⟩
      · rw [hts] at hlt
        exact absurd hlt (lt_irrefl _)
      · exact absurd hji (Nat.lt_asymm hij)

/-- Witness for the amended C3 on three ticks with one timestamp tie. -/
theorem claim_C3_amended_witness :
    (sortTicks exParsed3).Pairwise (fun a b => a.ts ≤ b.ts) ∧
    (npArgsortQuick (exParsed3.map (fun t => t.ts))).indexOf 0 <
      (npArgsortQuick (exParsed3.map (fun t => t.ts))).indexOf 2 :=
  ⟨(claim_C3_amended exParsed3 (by decide)).1,
   (claim_C3_amended exParsed3 (by decide)).2 0 2 (by decide) (by decide) (by decide)⟩

end OHLCVC
